import Mathlib

/-!
Verification of the per-connection message framer implemented by the `Server`
class in `src/libstoplight.py`.

The embedding models Python byte strings as `List Nat` (each entry a byte
value), Python `str` values as `List Char` (lists of Unicode scalar values),
and JSON values as the inductive `Json` below.  The `json` standard-library
calls made by the source (`json.dumps(obj, ensure_ascii=False).encode(enc)`
and `json.load` over a decoded byte stream) are modelled by an executable
serializer and parser over these types; the model implements the `utf-8`
codec and the integer fragment of JSON numbers (floating-point literals and
other codecs are outside the model and map to failure).
-/

/-- Characters of a string literal; models a Python `str` as the list of its
Unicode scalar values. -/
def strL (s : String) : List Char := s.data

/-- Models `struct.pack` with format `>H`: big-endian 2-byte encoding of an
unsigned 16-bit integer. -/
def packU16BE (n : Nat) : List Nat := [n / 256, n % 256]

/-- Models `struct.unpack` with format `>H` applied to two bytes: big-endian
unsigned 16-bit decoding. -/
def unpackU16BE (b0 b1 : Nat) : Nat := b0 * 256 + b1

theorem unpack_pack_u16 (n : Nat) (h : n < 65536) :
    unpackU16BE (n / 256) (n % 256) = n := by
  unfold unpackU16BE
  omega

mutual
/-- JSON values as handled by Python `json`: objects keep their key order,
numbers are restricted to the integer fragment used by the program. -/
inductive Json where
  | null : Json
  | bool (b : Bool) : Json
  | num (i : Int) : Json
  | str (s : List Char) : Json
  | arr (xs : JsonList) : Json
  | obj (kvs : JsonPairs) : Json
/-- Elements of a JSON array. -/
inductive JsonList where
  | nil : JsonList
  | cons (hd : Json) (tl : JsonList) : JsonList
/-- Members of a JSON object, in insertion order (models a Python dict). -/
inductive JsonPairs where
  | nil : JsonPairs
  | cons (k : List Char) (v : Json) (tl : JsonPairs) : JsonPairs
end

/-- Dict lookup: the first member with the given key (members built by
`dictInsert` have unique keys, matching Python dict semantics). -/
def pairsLookup : JsonPairs → List Char → Option Json
  | .nil, _ => none
  | .cons k v tl, key => if k = key then some v else pairsLookup tl key

/-- Models Python dict assignment `d[k] = v`: replaces the value in place when
the key exists, otherwise appends the new member. -/
def dictInsert : JsonPairs → List Char → Json → JsonPairs
  | .nil, key, v => .cons key v .nil
  | .cons k w tl, key, v =>
    if k = key then .cons k v tl else .cons k w (dictInsert tl key v)

/-- True when the object has no members. -/
def pairsIsEmpty : JsonPairs → Bool
  | .nil => true
  | .cons _ _ _ => false

/-- True when the array has no elements. -/
def jsonListIsEmpty : JsonList → Bool
  | .nil => true
  | .cons _ _ => false

/-- Membership of a string in a JSON array via Python `==` against each
element (a string only ever equals a string). -/
def jsonListHasStr : JsonList → List Char → Bool
  | .nil, _ => false
  | .cons x tl, key =>
    (match x with
     | .str t => decide (t = key)
     | _ => false) || jsonListHasStr tl key

/-! ## UTF-8 codec

Models `bytes.decode("utf-8")` / `str.encode("utf-8")` as used by
`_json_encode` and `_json_decode` in the source. The decoder is strict:
overlong forms, surrogates and out-of-range values are rejected, as in
Python. -/

/-- UTF-8 encoding of one Unicode scalar value. -/
def utf8EncodeCp (n : Nat) : List Nat :=
  if n < 0x80 then [n]
  else if n < 0x800 then [0xC0 + n / 64, 0x80 + n % 64]
  else if n < 0x10000 then
    [0xE0 + n / 4096, 0x80 + (n / 64) % 64, 0x80 + n % 64]
  else
    [0xF0 + n / 262144, 0x80 + (n / 4096) % 64, 0x80 + (n / 64) % 64, 0x80 + n % 64]

/-- UTF-8 encoding of a string. -/
def utf8Encode : List Char → List Nat
  | [] => []
  | c :: cs => utf8EncodeCp c.toNat ++ utf8Encode cs

/-- True for UTF-8 continuation bytes. -/
def isCont (b : Nat) : Bool := decide (0x80 ≤ b) && decide (b < 0xC0)

theorem isCont_true (b : Nat) (h1 : 0x80 ≤ b) (h2 : b < 0xC0) : isCont b = true := by
  simp only [isCont, Bool.and_eq_true, decide_eq_true_eq]
  omega

/-- Decode a single UTF-8 sequence from the head of a byte string, returning
the scalar value and the remaining bytes; strict, as the Python codec is:
overlong forms, surrogates and out-of-range values are rejected. -/
def utf8DecodeOne : List Nat → Option (Nat × List Nat)
  | [] => none
  | b :: bs =>
    if b < 0x80 then some (b, bs)
    else if b < 0xC2 then none
    else if b < 0xE0 then
      match bs with
      | b1 :: bs1 =>
        if isCont b1 then some ((b - 0xC0) * 64 + (b1 - 0x80), bs1) else none
      | [] => none
    else if b < 0xF0 then
      match bs with
      | b1 :: b2 :: bs2 =>
        if isCont b1 && isCont b2 then
          if (b - 0xE0) * 4096 + (b1 - 0x80) * 64 + (b2 - 0x80) < 0x800
              ∨ (0xD800 ≤ (b - 0xE0) * 4096 + (b1 - 0x80) * 64 + (b2 - 0x80)
                 ∧ (b - 0xE0) * 4096 + (b1 - 0x80) * 64 + (b2 - 0x80) ≤ 0xDFFF) then none
          else some ((b - 0xE0) * 4096 + (b1 - 0x80) * 64 + (b2 - 0x80), bs2)
        else none
      | _ => none
    else if b < 0xF5 then
      match bs with
      | b1 :: b2 :: b3 :: bs3 =>
        if isCont b1 && isCont b2 && isCont b3 then
          if (b - 0xF0) * 262144 + (b1 - 0x80) * 4096 + (b2 - 0x80) * 64 + (b3 - 0x80) < 0x10000
              ∨ 0x110000 ≤ (b - 0xF0) * 262144 + (b1 - 0x80) * 4096 + (b2 - 0x80) * 64
                  + (b3 - 0x80) then none
          else some ((b - 0xF0) * 262144 + (b1 - 0x80) * 4096 + (b2 - 0x80) * 64 + (b3 - 0x80), bs3)
        else none
      | _ => none
    else none

theorem utf8DecodeOne_some_length {l : List Nat} {n : Nat} {rest : List Nat}
    (h : utf8DecodeOne l = some (n, rest)) : rest.length < l.length := by
  match l with
  | [] => simp [utf8DecodeOne] at h
  | b :: bs =>
    simp only [utf8DecodeOne] at h
    repeat' split at h
    all_goals simp_all
    all_goals omega

/-- Strict UTF-8 decoding with a recursion-depth bound; each decoded sequence
consumes at least one byte, so any fuel of at least the byte count gives the
full decode. -/
def utf8DecodeF : Nat → List Nat → Option (List Char)
  | _, [] => some []
  | 0, _ :: _ => none
  | f + 1, b :: bs =>
    match utf8DecodeOne (b :: bs) with
    | some (n, rest) => (utf8DecodeF f rest).map (fun cs => Char.ofNat n :: cs)
    | none => none

/-- Strict UTF-8 decoding of a whole byte string, as Python performs when a
byte span is decoded with the `utf-8` codec. -/
def utf8Decode (l : List Nat) : Option (List Char) :=
  utf8DecodeF l.length l

theorem utf8DecodeF_mono : ∀ (f g : Nat) (l : List Nat), l.length ≤ f → l.length ≤ g →
    utf8DecodeF f l = utf8DecodeF g l := by
  intro f
  induction f with
  | zero =>
    intro g l hf hg
    cases l with
    | nil => cases g <;> rfl
    | cons b bs => simp at hf
  | succ f ih =>
    intro g l hf hg
    cases l with
    | nil => cases g <;> rfl
    | cons b bs =>
      cases g with
      | zero => simp at hg
      | succ g2 =>
        show (match utf8DecodeOne (b :: bs) with
          | some (n, rest) => (utf8DecodeF f rest).map (fun cs => Char.ofNat n :: cs)
          | none => none)
          = (match utf8DecodeOne (b :: bs) with
          | some (n, rest) => (utf8DecodeF g2 rest).map (fun cs => Char.ofNat n :: cs)
          | none => none)
        cases hone : utf8DecodeOne (b :: bs) with
        | none => rfl
        | some pr =>
          obtain ⟨n, rest⟩ := pr
          have hlen := utf8DecodeOne_some_length hone
          simp only [List.length_cons] at hf hg hlen
          simp only [hone]
          rw [ih g2 rest (by omega) (by omega)]

theorem char_valid_nat (c : Char) :
    c.toNat < 0xD800 ∨ (0xDFFF < c.toNat ∧ c.toNat < 0x110000) := c.valid

theorem utf8DecodeOne_encodeCp (n : Nat)
    (hv : n < 0xD800 ∨ (0xDFFF < n ∧ n < 0x110000)) (rest : List Nat) :
    utf8DecodeOne (utf8EncodeCp n ++ rest) = some (n, rest) := by
  have d1 : n / 4096 = n / 64 / 64 := by rw [Nat.div_div_eq_div_mul]
  have d2 : n / 262144 = n / 4096 / 64 := by rw [Nat.div_div_eq_div_mul]
  by_cases h1 : n < 0x80
  · rw [utf8EncodeCp, if_pos h1]
    simp only [List.cons_append, List.nil_append, utf8DecodeOne, if_pos h1]
  · by_cases h2 : n < 0x800
    · rw [utf8EncodeCp, if_neg h1, if_pos h2]
      simp only [List.cons_append, List.nil_append, utf8DecodeOne]
      have e1 : ¬ (0xC0 + n / 64 < 0x80) := by omega
      have e2 : ¬ (0xC0 + n / 64 < 0xC2) := by omega
      have e3 : (0xC0 + n / 64 < 0xE0) := by omega
      have hval : (0xC0 + n / 64 - 0xC0) * 64 + (0x80 + n % 64 - 0x80) = n := by omega
      rw [if_neg e1, if_neg e2, if_pos e3, isCont_true _ (by omega) (by omega),
        if_pos rfl, hval]
    · by_cases h3 : n < 0x10000
      · rw [utf8EncodeCp, if_neg h1, if_neg h2, if_pos h3]
        simp only [List.cons_append, List.nil_append, utf8DecodeOne]
        have e1 : ¬ (0xE0 + n / 4096 < 0x80) := by omega
        have e2 : ¬ (0xE0 + n / 4096 < 0xC2) := by omega
        have e3 : ¬ (0xE0 + n / 4096 < 0xE0) := by omega
        have e4 : (0xE0 + n / 4096 < 0xF0) := by omega
        rw [if_neg e1, if_neg e2, if_neg e3, if_pos e4,
          isCont_true _ (by omega) (by omega), isCont_true _ (by omega) (by omega)]
        have hval : (0xE0 + n / 4096 - 0xE0) * 4096 + (0x80 + n / 64 % 64 - 0x80) * 64
            + (0x80 + n % 64 - 0x80) = n := by omega
        rw [if_pos (by rfl), hval, if_neg (by omega)]
      · rw [utf8EncodeCp, if_neg h1, if_neg h2, if_neg h3]
        simp only [List.cons_append, List.nil_append, utf8DecodeOne]
        have e1 : ¬ (0xF0 + n / 262144 < 0x80) := by omega
        have e2 : ¬ (0xF0 + n / 262144 < 0xC2) := by omega
        have e3 : ¬ (0xF0 + n / 262144 < 0xE0) := by omega
        have e4 : ¬ (0xF0 + n / 262144 < 0xF0) := by omega
        have e5 : (0xF0 + n / 262144 < 0xF5) := by omega
        rw [if_neg e1, if_neg e2, if_neg e3, if_neg e4, if_pos e5,
          isCont_true _ (by omega) (by omega), isCont_true _ (by omega) (by omega),
          isCont_true _ (by omega) (by omega)]
        have hval : (0xF0 + n / 262144 - 0xF0) * 262144 + (0x80 + n / 4096 % 64 - 0x80) * 4096
            + (0x80 + n / 64 % 64 - 0x80) * 64 + (0x80 + n % 64 - 0x80) = n := by omega
        rw [if_pos (by rfl), hval, if_neg (by omega)]

theorem utf8Decode_eq_some {l : List Nat} {n : Nat} {rest : List Nat}
    (h : utf8DecodeOne l = some (n, rest)) :
    utf8Decode l = (utf8Decode rest).map (fun cs => Char.ofNat n :: cs) := by
  match l with
  | [] => simp [utf8DecodeOne] at h
  | b :: bs =>
    have hlen := utf8DecodeOne_some_length h
    simp only [List.length_cons] at hlen
    show (match utf8DecodeOne (b :: bs) with
      | some (n, rest) => (utf8DecodeF bs.length rest).map (fun cs => Char.ofNat n :: cs)
      | none => none)
      = (utf8Decode rest).map (fun cs => Char.ofNat n :: cs)
    simp only [h]
    rw [utf8DecodeF_mono bs.length rest.length rest (by omega) (le_refl _)]
    rfl

theorem utf8Decode_encodeCp_append (c : Char) (rest : List Nat) :
    utf8Decode (utf8EncodeCp c.toNat ++ rest)
      = (utf8Decode rest).map (fun cs => c :: cs) := by
  rw [utf8Decode_eq_some (utf8DecodeOne_encodeCp c.toNat (char_valid_nat c) rest)]
  simp only [Char.ofNat_toNat]

theorem utf8Decode_append_encode (cs : List Char) (rest : List Nat) :
    utf8Decode (utf8Encode cs ++ rest)
      = (utf8Decode rest).map (fun tl => cs ++ tl) := by
  induction cs with
  | nil =>
      simp only [utf8Encode, List.nil_append]
      cases utf8Decode rest <;> simp
  | cons c cs ih =>
      simp only [utf8Encode, List.append_assoc]
      rw [utf8Decode_encodeCp_append c, ih]
      cases utf8Decode rest <;> simp

theorem utf8Decode_encode (cs : List Char) :
    utf8Decode (utf8Encode cs) = some cs := by
  have h := utf8Decode_append_encode cs []
  simpa [utf8Decode, utf8DecodeF] using h

/-! ## JSON serializer

Models `json.dumps(obj, ensure_ascii=False).encode(encoding)` as called by
`Server._json_encode`: default separators (a comma-space between items, a
colon-space between keys and values), keys in insertion order, quote,
backslash and control characters escaped, everything else emitted raw. -/

/-- Lowercase hexadecimal digit character. -/
def lowerHexDigit (x : Nat) : Char :=
  if x < 10 then Char.ofNat (48 + x) else Char.ofNat (87 + x)

/-- JSON escaping of one character under `ensure_ascii=False`: only the
quote, the backslash and control characters below 0x20 are escaped. -/
def escapeChar (c : Char) : List Char :=
  if c = '\"' then ['\\', '\"']
  else if c = '\\' then ['\\', '\\']
  else if c.toNat = 8 then ['\\', 'b']
  else if c.toNat = 9 then ['\\', 't']
  else if c.toNat = 10 then ['\\', 'n']
  else if c.toNat = 12 then ['\\', 'f']
  else if c.toNat = 13 then ['\\', 'r']
  else if c.toNat < 32 then
    ['\\', 'u', '0', '0', lowerHexDigit (c.toNat / 16), lowerHexDigit (c.toNat % 16)]
  else [c]

/-- JSON escaping of a whole string. -/
def escapeStr : List Char → List Char
  | [] => []
  | c :: cs => escapeChar c ++ escapeStr cs

/-- Serialized JSON string literal. -/
def dumpStr (s : List Char) : List Char := '\"' :: (escapeStr s ++ ['\"'])

/-- Decimal digit character. -/
def digitChar (d : Nat) : Char := Char.ofNat (48 + d)

/-- Decimal digit extraction with a recursion-depth bound; the quotient
shrinks every step, so fuel equal to the number itself always suffices. -/
def natToDigitsAuxF : Nat → Nat → List Char → List Char
  | _, 0, acc => acc
  | 0, _ + 1, acc => acc
  | f + 1, n + 1, acc => natToDigitsAuxF f ((n + 1) / 10) (digitChar ((n + 1) % 10) :: acc)

/-- Decimal digits of a positive number, most significant first, prepended to
an accumulator. -/
def natToDigitsAux (n : Nat) (acc : List Char) : List Char := natToDigitsAuxF n n acc

theorem natToDigitsAuxF_mono : ∀ (f g n : Nat) (acc : List Char), n ≤ f → n ≤ g →
    natToDigitsAuxF f n acc = natToDigitsAuxF g n acc := by
  intro f
  induction f with
  | zero =>
    intro g n acc hf hg
    cases n with
    | zero => cases g <;> rfl
    | succ m => exact absurd hf (by omega)
  | succ f ih =>
    intro g n acc hf hg
    cases n with
    | zero => cases g <;> rfl
    | succ m =>
      cases g with
      | zero => exact absurd hg (by omega)
      | succ g2 =>
        show natToDigitsAuxF f ((m + 1) / 10) (digitChar ((m + 1) % 10) :: acc)
          = natToDigitsAuxF g2 ((m + 1) / 10) (digitChar ((m + 1) % 10) :: acc)
        exact ih g2 _ _ (by omega) (by omega)

theorem natToDigitsAux_succ (m : Nat) (acc : List Char) :
    natToDigitsAux (m + 1) acc
      = natToDigitsAux ((m + 1) / 10) (digitChar ((m + 1) % 10) :: acc) := by
  show natToDigitsAuxF m ((m + 1) / 10) (digitChar ((m + 1) % 10) :: acc)
    = natToDigitsAuxF ((m + 1) / 10) ((m + 1) / 10) (digitChar ((m + 1) % 10) :: acc)
  exact natToDigitsAuxF_mono m _ _ _ (by omega) (by omega)

/-- Decimal representation of a natural number. -/
def natToDigits (n : Nat) : List Char := if n = 0 then ['0'] else natToDigitsAux n []

/-- Decimal representation of an integer, as repr of a Python int. -/
def dumpInt (i : Int) : List Char :=
  if i < 0 then '-' :: natToDigits i.natAbs else natToDigits i.toNat

mutual
/-- Serialize a JSON value the way `json.dumps(obj, ensure_ascii=False)`
renders it with the default separators. -/
def jsonDumps : Json → List Char
  | .null => strL "null"
  | .bool true => strL "true"
  | .bool false => strL "false"
  | .num i => dumpInt i
  | .str s => dumpStr s
  | .arr xs => '[' :: (dumpElems xs ++ [']'])
  | .obj kvs => '\x7b' :: (dumpMembers kvs ++ ['\x7d'])
termination_by structural j => j
/-- Serialize array elements, separated by comma-space. -/
def dumpElems : JsonList → List Char
  | .nil => []
  | .cons v .nil => jsonDumps v
  | .cons v (.cons w tl) => jsonDumps v ++ ',' :: ' ' :: dumpElems (.cons w tl)
termination_by structural l => l
/-- Serialize object members, separated by comma-space, key colon-space value. -/
def dumpMembers : JsonPairs → List Char
  | .nil => []
  | .cons k v .nil => dumpStr k ++ ':' :: ' ' :: jsonDumps v
  | .cons k v (.cons k2 v2 tl) =>
    dumpStr k ++ ':' :: ' ' :: (jsonDumps v ++ ',' :: ' ' :: dumpMembers (.cons k2 v2 tl))
termination_by structural p => p
end

/-- Models `Server._json_encode(obj, "utf-8")`. -/
def jsonEncodeBytes (obj : Json) : List Nat := utf8Encode (jsonDumps obj)

/-! ## JSON parser

Models `json.load` over the text produced by decoding a byte span: a strict
recursive-descent parser for the JSON fragment the program exchanges.
Floating-point literals and surrogate escape pairs are outside the model and
map to failure. -/

/-- JSON whitespace. -/
def isJsonWs (c : Char) : Bool := c = ' ' || c = '\t' || c = '\n' || c = '\x0d'

/-- Skip leading JSON whitespace. -/
def skipWs (l : List Char) : List Char := l.dropWhile isJsonWs

/-- Decimal digit test. -/
def isDigitChar (c : Char) : Bool := decide (48 ≤ c.toNat) && decide (c.toNat ≤ 57)

/-- Value of a hexadecimal digit character. -/
def hexVal (c : Char) : Option Nat :=
  if 48 ≤ c.toNat ∧ c.toNat ≤ 57 then some (c.toNat - 48)
  else if 97 ≤ c.toNat ∧ c.toNat ≤ 102 then some (c.toNat - 87)
  else if 65 ≤ c.toNat ∧ c.toNat ≤ 70 then some (c.toNat - 55)
  else none

/-- Value of a single-character string escape. -/
def escCharVal (e : Char) : Option Char :=
  if e = '\"' then some '\"'
  else if e = '\\' then some '\\'
  else if e = '/' then some '/'
  else if e = 'b' then some (Char.ofNat 8)
  else if e = 'f' then some (Char.ofNat 12)
  else if e = 'n' then some (Char.ofNat 10)
  else if e = 'r' then some (Char.ofNat 13)
  else if e = 't' then some (Char.ofNat 9)
  else none

/-- Parse the body of a JSON string literal after the opening quote, up to
and including the closing quote; the fuel argument only bounds the recursion
depth and is always called with more fuel than input characters. -/
def parseStringBodyF : Nat → List Char → Option (List Char × List Char)
  | 0, _ => none
  | _ + 1, [] => none
  | f + 1, c :: rest =>
    if c = '\"' then some ([], rest)
    else if c = '\\' then
      match rest with
      | [] => none
      | e :: rest2 =>
        if e = 'u' then
          match rest2 with
          | d1 :: d2 :: d3 :: d4 :: rest3 =>
            match hexVal d1, hexVal d2, hexVal d3, hexVal d4 with
            | some a, some b, some c2, some d =>
              if 0xD800 ≤ a * 4096 + b * 256 + c2 * 16 + d
                  ∧ a * 4096 + b * 256 + c2 * 16 + d ≤ 0xDFFF then none
              else
                (parseStringBodyF f rest3).map
                  (fun pr => (Char.ofNat (a * 4096 + b * 256 + c2 * 16 + d) :: pr.1, pr.2))
            | _, _, _, _ => none
          | _ => none
        else
          match escCharVal e with
          | some ec => (parseStringBodyF f rest2).map (fun pr => (ec :: pr.1, pr.2))
          | none => none
    else if c.toNat < 32 then none
    else (parseStringBodyF f rest).map (fun pr => (c :: pr.1, pr.2))

/-- Parse the body of a JSON string literal after the opening quote. -/
def parseStringBody (l : List Char) : Option (List Char × List Char) :=
  parseStringBodyF (l.length + 1) l

/-- Accumulate a run of decimal digits. -/
def digitsToNatAux (acc : Nat) : List Char → Nat × List Char
  | [] => (acc, [])
  | c :: rest =>
    if isDigitChar c then digitsToNatAux (acc * 10 + (c.toNat - 48)) rest else (acc, c :: rest)

/-- Parse an unsigned JSON integer literal: one zero, or a nonzero digit
followed by digits. -/
def parseNatDigits : List Char → Option (Nat × List Char)
  | [] => none
  | c :: rest =>
    if c = '0' then
      match rest with
      | c2 :: _ => if isDigitChar c2 then none else some (0, rest)
      | [] => some (0, [])
    else if isDigitChar c then some (digitsToNatAux (c.toNat - 48) rest)
    else none

/-- A fraction or exponent marker follows: the literal is a float, which is
outside the modelled integer fragment. -/
def floatFollows : List Char → Bool
  | [] => false
  | c :: _ => c = '.' || c = 'e' || c = 'E'

/-- Parse a JSON number restricted to the integer fragment. -/
def parseNumber (l : List Char) : Option (Json × List Char) :=
  match l with
  | [] => none
  | c :: rest =>
    if c = '-' then
      (parseNatDigits rest).bind fun pr =>
        if floatFollows pr.2 then none else some (.num (-(pr.1 : Int)), pr.2)
    else
      (parseNatDigits (c :: rest)).bind fun pr =>
        if floatFollows pr.2 then none else some (.num ((pr.1 : Nat) : Int), pr.2)

/-- Append one element at the end of a JSON array. -/
def jsonListSnoc : JsonList → Json → JsonList
  | .nil, v => .cons v .nil
  | .cons x tl, v => .cons x (jsonListSnoc tl v)

mutual
/-- Parse one JSON value; the fuel bounds the recursion depth and is spent on
every nested value and on every member or element step. -/
def parseValue (fuel : Nat) (l : List Char) : Option (Json × List Char) :=
  match fuel with
  | 0 => none
  | fuel + 1 =>
    match skipWs l with
    | [] => none
    | c :: rest =>
      if c = '\"' then (parseStringBody rest).map (fun pr => (.str pr.1, pr.2))
      else if c = '\x7b' then
        match skipWs rest with
        | '\x7d' :: r2 => some (.obj .nil, r2)
        | _ => parseMembers fuel .nil rest
      else if c = '[' then
        match skipWs rest with
        | ']' :: r2 => some (.arr .nil, r2)
        | _ => parseElems fuel .nil rest
      else if c = 't' then
        match rest with
        | 'r' :: 'u' :: 'e' :: r2 => some (.bool true, r2)
        | _ => none
      else if c = 'f' then
        match rest with
        | 'a' :: 'l' :: 's' :: 'e' :: r2 => some (.bool false, r2)
        | _ => none
      else if c = 'n' then
        match rest with
        | 'u' :: 'l' :: 'l' :: r2 => some (.null, r2)
        | _ => none
      else parseNumber (c :: rest)

/-- Parse the members of a JSON object after its opening brace, accumulating
them with dict-assignment semantics. -/
def parseMembers (fuel : Nat) (acc : JsonPairs) (l : List Char) : Option (Json × List Char) :=
  match fuel with
  | 0 => none
  | fuel + 1 =>
    match skipWs l with
    | '\"' :: rest =>
      match parseStringBody rest with
      | none => none
      | some (key, r1) =>
        match skipWs r1 with
        | ':' :: r2 =>
          match parseValue fuel r2 with
          | none => none
          | some (v, r3) =>
            match skipWs r3 with
            | ',' :: r4 => parseMembers fuel (dictInsert acc key v) r4
            | '\x7d' :: r4 => some (.obj (dictInsert acc key v), r4)
            | _ => none
        | _ => none
    | _ => none

/-- Parse the elements of a JSON array after its opening bracket. -/
def parseElems (fuel : Nat) (acc : JsonList) (l : List Char) : Option (Json × List Char) :=
  match fuel with
  | 0 => none
  | fuel + 1 =>
    match parseValue fuel l with
    | none => none
    | some (v, r1) =>
      match skipWs r1 with
      | ',' :: r2 => parseElems fuel (jsonListSnoc acc v) r2
      | ']' :: r2 => some (.arr (jsonListSnoc acc v), r2)
      | _ => none
end

/-- Models `json.load` on the text obtained from a decoded byte span: parse
one value and require only whitespace to follow. -/
def jsonParse (l : List Char) : Option Json :=
  match parseValue (l.length + 1) l with
  | some (v, rest) => if (skipWs rest).isEmpty then some v else none
  | none => none

/-- Models `Server._json_decode(bytes, encoding)`: decode the bytes with the
named codec, then parse the text as JSON.  Only the `utf-8` codec is inside
the model; other codec names map to failure. -/
def jsonDecodeBytesWith (enc : List Char) (bytes : List Nat) : Option Json :=
  if enc = strL "utf-8" then
    match utf8Decode bytes with
    | some text => jsonParse text
    | none => none
  else none

/-- Models `Server._json_decode(bytes, "utf-8")` as used for the header. -/
def jsonDecodeBytes (bytes : List Nat) : Option Json :=
  jsonDecodeBytesWith (strL "utf-8") bytes

/-! ## Round-trip lemmas for the serializer and parser -/

theorem charOfNat_toNat {n : Nat} (h : n < 0xD800) : (Char.ofNat n).toNat = n := by
  have hv : n.isValidChar := Or.inl h
  rw [Char.ofNat, dif_pos hv]
  rfl

theorem hexVal_lowerHexDigit {x : Nat} (h : x < 16) : hexVal (lowerHexDigit x) = some x := by
  by_cases h10 : x < 10
  · rw [lowerHexDigit, if_pos h10, hexVal]
    rw [if_pos (by rw [charOfNat_toNat (by omega)]; omega)]
    rw [charOfNat_toNat (by omega)]
    congr 1
    omega
  · rw [lowerHexDigit, if_neg h10, hexVal]
    rw [if_neg (by rw [charOfNat_toNat (by omega)]; omega)]
    rw [if_pos (by rw [charOfNat_toNat (by omega)]; omega)]
    rw [charOfNat_toNat (by omega)]
    congr 1
    omega


theorem psb_quote (f : Nat) (l : List Char) :
    parseStringBodyF (f + 1) ('\"' :: l) = some ([], l) := by
  simp only [parseStringBodyF]
  rw [if_pos trivial]

theorem psb_plain (f : Nat) {c : Char} (l : List Char)
    (h1 : ¬ c = '\"') (h2 : ¬ c = '\\') (h3 : ¬ c.toNat < 32) :
    parseStringBodyF (f + 1) (c :: l)
      = (parseStringBodyF f l).map (fun pr => (c :: pr.1, pr.2)) := by
  simp only [parseStringBodyF]
  rw [if_neg h1, if_neg h2, if_neg h3]

theorem psb_esc (f : Nat) {e ec : Char} (l : List Char)
    (hu : ¬ e = 'u') (hec : escCharVal e = some ec) :
    parseStringBodyF (f + 1) ('\\' :: e :: l)
      = (parseStringBodyF f l).map (fun pr => (ec :: pr.1, pr.2)) := by
  simp only [parseStringBodyF]
  rw [if_pos trivial, if_neg hu, hec]
  rfl

theorem psb_uesc (f : Nat) {d1 d2 d3 d4 : Char} {a b e2 f2 : Nat} (l : List Char)
    (ha : hexVal d1 = some a) (hb : hexVal d2 = some b)
    (he : hexVal d3 = some e2) (hf : hexVal d4 = some f2)
    (hs : ¬ (0xD800 ≤ a * 4096 + b * 256 + e2 * 16 + f2
        ∧ a * 4096 + b * 256 + e2 * 16 + f2 ≤ 0xDFFF)) :
    parseStringBodyF (f + 1) ('\\' :: 'u' :: d1 :: d2 :: d3 :: d4 :: l)
      = (parseStringBodyF f l).map
          (fun pr => (Char.ofNat (a * 4096 + b * 256 + e2 * 16 + f2) :: pr.1, pr.2)) := by
  simp only [parseStringBodyF]
  rw [if_pos trivial, if_pos trivial, ha, hb, he, hf]
  rw [if_neg (show ¬ ('\\' : Char) = '\"' from by decide)]
  show (if 0xD800 ≤ a * 4096 + b * 256 + e2 * 16 + f2
      ∧ a * 4096 + b * 256 + e2 * 16 + f2 ≤ 0xDFFF then none
    else (parseStringBodyF f l).map
      (fun pr => (Char.ofNat (a * 4096 + b * 256 + e2 * 16 + f2) :: pr.1, pr.2))) = _
  rw [if_neg hs]


theorem parseStringBodyF_escape (s : List Char) : ∀ f rest, s.length ≤ f →
    parseStringBodyF (f + 1) (escapeStr s ++ '\"' :: rest) = some (s, rest) := by
  induction s with
  | nil =>
    intro f rest _
    rw [escapeStr, List.nil_append, psb_quote]
  | cons c cs ih =>
    intro f rest hf
    match f with
    | 0 => simp at hf
    | f + 1 =>
      have hf2 : cs.length ≤ f := by simp at hf; omega
      rw [escapeStr, List.append_assoc]
      have hofn : Char.ofNat c.toNat = c := Char.ofNat_toNat c
      by_cases h1 : c = '\"'
      · rw [escapeChar, if_pos h1]
        rw [show (['\\', '\"'] : List Char) ++ (escapeStr cs ++ '\"' :: rest)
          = '\\' :: '\"' :: (escapeStr cs ++ '\"' :: rest) from rfl]
        rw [psb_esc (f + 1) _ (by decide) (by decide : escCharVal '\"' = some '\"'), ih f rest hf2]
        rw [h1]
        rfl
      · by_cases h2 : c = '\\'
        · rw [escapeChar, if_neg h1, if_pos h2]
          rw [show (['\\', '\\'] : List Char) ++ (escapeStr cs ++ '\"' :: rest)
            = '\\' :: '\\' :: (escapeStr cs ++ '\"' :: rest) from rfl]
          rw [psb_esc (f + 1) _ (by decide) (by decide : escCharVal '\\' = some '\\'), ih f rest hf2]
          rw [h2]
          rfl
        · by_cases h3 : c.toNat = 8
          · rw [escapeChar, if_neg h1, if_neg h2, if_pos h3]
            rw [show (['\\', 'b'] : List Char) ++ (escapeStr cs ++ '\"' :: rest)
              = '\\' :: 'b' :: (escapeStr cs ++ '\"' :: rest) from rfl]
            rw [psb_esc (f + 1) _ (by decide) (by decide : escCharVal 'b' = some (Char.ofNat 8)),
              ih f rest hf2]
            simp only [← h3, hofn]
            rfl
          · by_cases h4 : c.toNat = 9
            · rw [escapeChar, if_neg h1, if_neg h2, if_neg h3, if_pos h4]
              rw [show (['\\', 't'] : List Char) ++ (escapeStr cs ++ '\"' :: rest)
                = '\\' :: 't' :: (escapeStr cs ++ '\"' :: rest) from rfl]
              rw [psb_esc (f + 1) _ (by decide) (by decide : escCharVal 't' = some (Char.ofNat 9)),
                ih f rest hf2]
              simp only [← h4, hofn]
              rfl
            · by_cases h5 : c.toNat = 10
              · rw [escapeChar, if_neg h1, if_neg h2, if_neg h3, if_neg h4, if_pos h5]
                rw [show (['\\', 'n'] : List Char) ++ (escapeStr cs ++ '\"' :: rest)
                  = '\\' :: 'n' :: (escapeStr cs ++ '\"' :: rest) from rfl]
                rw [psb_esc (f + 1) _ (by decide) (by decide : escCharVal 'n' = some (Char.ofNat 10)),
                  ih f rest hf2]
                simp only [← h5, hofn]
                rfl
              · by_cases h6 : c.toNat = 12
                · rw [escapeChar, if_neg h1, if_neg h2, if_neg h3, if_neg h4, if_neg h5, if_pos h6]
                  rw [show (['\\', 'f'] : List Char) ++ (escapeStr cs ++ '\"' :: rest)
                    = '\\' :: 'f' :: (escapeStr cs ++ '\"' :: rest) from rfl]
                  rw [psb_esc (f + 1) _ (by decide) (by decide : escCharVal 'f' = some (Char.ofNat 12)),
                    ih f rest hf2]
                  simp only [← h6, hofn]
                  rfl
                · by_cases h7 : c.toNat = 13
                  · rw [escapeChar, if_neg h1, if_neg h2, if_neg h3, if_neg h4, if_neg h5,
                      if_neg h6, if_pos h7]
                    rw [show (['\\', 'r'] : List Char) ++ (escapeStr cs ++ '\"' :: rest)
                      = '\\' :: 'r' :: (escapeStr cs ++ '\"' :: rest) from rfl]
                    rw [psb_esc (f + 1) _ (by decide) (by decide : escCharVal 'r' = some (Char.ofNat 13)),
                      ih f rest hf2]
                    simp only [← h7, hofn]
                    rfl
                  · by_cases h8 : c.toNat < 32
                    · rw [escapeChar, if_neg h1, if_neg h2, if_neg h3, if_neg h4, if_neg h5,
                        if_neg h6, if_neg h7, if_pos h8]
                      rw [show (['\\', 'u', '0', '0', lowerHexDigit (c.toNat / 16),
                          lowerHexDigit (c.toNat % 16)] : List Char)
                          ++ (escapeStr cs ++ '\"' :: rest)
                        = '\\' :: 'u' :: '0' :: '0' :: lowerHexDigit (c.toNat / 16)
                          :: lowerHexDigit (c.toNat % 16) :: (escapeStr cs ++ '\"' :: rest)
                        from rfl]
                      rw [psb_uesc (f + 1) _ (by decide : hexVal '0' = some 0)
                        (by decide : hexVal '0' = some 0)
                        (hexVal_lowerHexDigit (by omega : c.toNat / 16 < 16))
                        (hexVal_lowerHexDigit (by omega : c.toNat % 16 < 16))
                        (by omega), ih f rest hf2]
                      have hval : 0 * 4096 + 0 * 256 + c.toNat / 16 * 16 + c.toNat % 16
                          = c.toNat := by omega
                      simp only [hval, hofn]
                      rfl
                    · rw [escapeChar, if_neg h1, if_neg h2, if_neg h3, if_neg h4, if_neg h5,
                        if_neg h6, if_neg h7, if_neg h8]
                      rw [show ([c] : List Char) ++ (escapeStr cs ++ '\"' :: rest)
                        = c :: (escapeStr cs ++ '\"' :: rest) from rfl]
                      rw [psb_plain (f + 1) _ h1 h2 h8, ih f rest hf2]
                      rfl

theorem length_le_escapeStr (s : List Char) : s.length ≤ (escapeStr s).length := by
  induction s with
  | nil => simp [escapeStr]
  | cons c cs ih =>
    rw [escapeStr, List.length_append, List.length_cons]
    have : 1 ≤ (escapeChar c).length := by
      rw [escapeChar]
      repeat' split
      all_goals simp
    omega

theorem parseStringBody_escape (s : List Char) (rest : List Char) :
    parseStringBody (escapeStr s ++ '\"' :: rest) = some (s, rest) := by
  rw [parseStringBody]
  refine parseStringBodyF_escape s _ rest ?_
  have h1 := length_le_escapeStr s
  have h2 : (escapeStr s ++ '\"' :: rest).length = (escapeStr s).length + (rest.length + 1) := by
    simp
  omega

theorem digitChar_toNat {d : Nat} (h : d < 10) : (digitChar d).toNat = 48 + d := by
  rw [digitChar, charOfNat_toNat (by omega)]

theorem isDigitChar_digitChar {d : Nat} (h : d < 10) : isDigitChar (digitChar d) = true := by
  simp only [isDigitChar, digitChar_toNat h, Bool.and_eq_true, decide_eq_true_eq]
  omega

theorem natToDigitsAux_acc (n : Nat) :
    ∀ acc : List Char, natToDigitsAux n acc = natToDigitsAux n [] ++ acc := by
  induction n using Nat.strongRecOn with
  | ind n ih =>
    intro acc
    match n with
    | 0 => simp [natToDigitsAux, natToDigitsAuxF]
    | m + 1 =>
      rw [natToDigitsAux_succ, natToDigitsAux_succ]
      have hlt : (m + 1) / 10 < m + 1 := Nat.div_lt_self (Nat.succ_pos m) (by omega)
      rw [ih _ hlt (digitChar ((m + 1) % 10) :: acc), ih _ hlt [digitChar ((m + 1) % 10)]]
      simp

/-- Value of a digit run prepended to an accumulator. -/
def digitsVal (a : Nat) (ds : List Char) : Nat :=
  ds.foldl (fun x c => x * 10 + (c.toNat - 48)) a

theorem digitsToNatAux_run (ds : List Char) (hds : ∀ c ∈ ds, isDigitChar c = true) :
    ∀ a rest, (∀ c, rest.head? = some c → isDigitChar c = false) →
    digitsToNatAux a (ds ++ rest) = (digitsVal a ds, rest) := by
  induction ds with
  | nil =>
    intro a rest hrest
    match rest with
    | [] => simp [digitsToNatAux, digitsVal]
    | c :: rest2 =>
      have := hrest c rfl
      simp [digitsToNatAux, this, digitsVal]
  | cons d ds ih =>
    intro a rest hrest
    have hd : isDigitChar d = true := hds d (by simp)
    rw [List.cons_append, digitsToNatAux, if_pos hd]
    rw [ih (fun c hc => hds c (by simp [hc])) _ rest hrest]
    simp [digitsVal]

theorem digitsVal_append (a : Nat) (ds es : List Char) :
    digitsVal a (ds ++ es) = digitsVal (digitsVal a ds) es := by
  simp [digitsVal, List.foldl_append]

theorem natToDigits_digits (n : Nat) : ∀ c ∈ natToDigitsAux n [], isDigitChar c = true := by
  induction n using Nat.strongRecOn with
  | ind n ih =>
    match n with
    | 0 => simp [natToDigitsAux, natToDigitsAuxF]
    | m + 1 =>
      rw [natToDigitsAux_succ]
      have hlt : (m + 1) / 10 < m + 1 := Nat.div_lt_self (Nat.succ_pos m) (by omega)
      rw [natToDigitsAux_acc]
      intro c hc
      rcases List.mem_append.mp hc with h | h
      · exact ih _ hlt c h
      · simp at h
        rw [h]
        exact isDigitChar_digitChar (Nat.mod_lt _ (by omega))

theorem digitsVal_natToDigitsAux (n : Nat) :
    ∀ a, digitsVal a (natToDigitsAux n []) = a * 10 ^ (natToDigitsAux n []).length + n := by
  induction n using Nat.strongRecOn with
  | ind n ih =>
    match n with
    | 0 => intro a; simp [natToDigitsAux, natToDigitsAuxF, digitsVal]
    | m + 1 =>
      intro a
      rw [natToDigitsAux_succ, natToDigitsAux_acc]
      have hlt : (m + 1) / 10 < m + 1 := Nat.div_lt_self (Nat.succ_pos m) (by omega)
      rw [digitsVal_append, ih _ hlt a]
      have hq := Nat.div_add_mod (m + 1) 10
      have hr : (m + 1) % 10 < 10 := Nat.mod_lt _ (by omega)
      simp only [digitsVal, List.foldl_cons, List.foldl_nil, List.length_append,
        List.length_cons, List.length_nil]
      rw [digitChar_toNat hr]
      have : 48 + (m + 1) % 10 - 48 = (m + 1) % 10 := by omega
      rw [this, pow_succ]
      ring_nf
      omega

theorem natToDigits_head_ne_zero (n : Nat) (hn : 0 < n) :
    ∃ d ds, natToDigitsAux n [] = d :: ds ∧ isDigitChar d = true ∧ d ≠ '0' := by
  induction n using Nat.strongRecOn with
  | ind n ih =>
    match n with
    | 0 => omega
    | m + 1 =>
      rw [natToDigitsAux_succ, natToDigitsAux_acc]
      by_cases hq : (m + 1) / 10 = 0
      · rw [hq]
        simp only [natToDigitsAux, natToDigitsAuxF, List.nil_append]
        refine ⟨digitChar ((m + 1) % 10), [], rfl, isDigitChar_digitChar (Nat.mod_lt _ (by omega)), ?_⟩
        have h10 : m + 1 < 10 := by omega
        have : (m + 1) % 10 = m + 1 := Nat.mod_eq_of_lt h10
        intro hcon
        have := congrArg Char.toNat hcon
        rw [digitChar_toNat (by omega)] at this
        have h0 : ('0' : Char).toNat = 48 := rfl
        omega
      · have hlt : (m + 1) / 10 < m + 1 := Nat.div_lt_self (Nat.succ_pos m) (by omega)
        obtain ⟨d, ds, hds, hdig, hne⟩ := ih _ hlt (by omega)
        rw [hds]
        exact ⟨d, ds ++ [digitChar ((m + 1) % 10)], by simp, hdig, hne⟩

theorem dumpInt_ofNat (n : Nat) : dumpInt (Int.ofNat n) = natToDigits n := by
  rw [dumpInt]
  simp only [Int.ofNat_eq_coe]
  rw [if_neg (by omega)]
  simp

theorem natToDigits_shape (n : Nat) :
    ∃ d ds, natToDigits n = d :: ds ∧ isDigitChar d = true := by
  by_cases hn : n = 0
  · subst hn
    exact ⟨'0', [], by rw [natToDigits, if_pos rfl], by decide⟩
  · obtain ⟨d, ds, hds, hdig, _⟩ := natToDigits_head_ne_zero n (by omega)
    exact ⟨d, ds, by rw [natToDigits, if_neg hn, hds], hdig⟩

theorem parseNatDigits_natToDigits (n : Nat) (rest : List Char)
    (hrest : ∀ c, rest.head? = some c → isDigitChar c = false) :
    parseNatDigits (natToDigits n ++ rest) = some (n, rest) := by
  by_cases hn : n = 0
  · subst hn
    rw [natToDigits, if_pos rfl]
    match rest with
    | [] => simp [parseNatDigits]
    | c :: rest2 =>
      have hc := hrest c rfl
      simp [parseNatDigits, hc]
  · rw [natToDigits, if_neg hn]
    obtain ⟨d, ds, hds, hdig, hne⟩ := natToDigits_head_ne_zero n (by omega)
    rw [hds, List.cons_append]
    simp only [parseNatDigits]
    rw [if_neg hne, hdig, if_pos rfl]
    have hmem : ∀ c ∈ ds, isDigitChar c = true := by
      intro c hc
      refine natToDigits_digits n c ?_
      rw [hds]
      simp [hc]
    rw [digitsToNatAux_run ds hmem _ rest hrest]
    have hv := digitsVal_natToDigitsAux n 0
    rw [hds] at hv
    simp only [Nat.zero_mul, Nat.zero_add] at hv
    simp only [digitsVal, List.foldl_cons, Nat.zero_mul, Nat.zero_add] at hv ⊢
    rw [hv]

theorem isDigitChar_ne_minus {d : Char} (h : isDigitChar d = true) : ¬ d = '-' := by
  intro heq
  rw [heq] at h
  exact absurd h (by decide)

theorem parseNumber_nat (n : Nat) (rest : List Char)
    (hrest : ∀ c, rest.head? = some c → isDigitChar c = false)
    (hff : floatFollows rest = false) :
    parseNumber (natToDigits n ++ rest) = some (.num (Int.ofNat n), rest) := by
  obtain ⟨d, ds, hds, hdig⟩ := natToDigits_shape n
  rw [hds, List.cons_append]
  simp only [parseNumber]
  rw [if_neg (isDigitChar_ne_minus hdig), ← List.cons_append, ← hds,
    parseNatDigits_natToDigits n rest hrest]
  simp [hff]

theorem skipWs_not_ws {c : Char} (h : isJsonWs c = false) (l : List Char) :
    skipWs (c :: l) = c :: l := by
  simp [skipWs, List.dropWhile_cons, h]

theorem skipWs_space (l : List Char) : skipWs (' ' :: l) = skipWs l := by
  have h : isJsonWs ' ' = true := by decide
  simp [skipWs, List.dropWhile_cons, h]

theorem isJsonWs_digit {d : Char} (h : isDigitChar d = true) : isJsonWs d = false := by
  have h32 : ¬ d = ' ' := fun he => absurd (he ▸ h) (by decide)
  have h9 : ¬ d = '\t' := fun he => absurd (he ▸ h) (by decide)
  have h10 : ¬ d = '\n' := fun he => absurd (he ▸ h) (by decide)
  have h13 : ¬ d = '\x0d' := fun he => absurd (he ▸ h) (by decide)
  simp [isJsonWs, h32, h9, h10, h13]

theorem parseValue_dumpStr (f : Nat) (s : List Char) (rest : List Char) :
    parseValue (f + 1) (dumpStr s ++ rest) = some (.str s, rest) := by
  have hshape : dumpStr s ++ rest = '\"' :: (escapeStr s ++ '\"' :: rest) := by
    rw [dumpStr]
    simp
  rw [hshape]
  simp only [parseValue]
  rw [skipWs_not_ws (by decide)]
  simp [parseStringBody_escape]

theorem isDigitChar_not_syms {d : Char} (h : isDigitChar d = true) :
    ¬ d = '\"' ∧ ¬ d = '\x7b' ∧ ¬ d = '[' ∧ ¬ d = 't' ∧ ¬ d = 'f' ∧ ¬ d = 'n' := by
  refine ⟨?_, ?_, ?_, ?_, ?_, ?_⟩ <;> exact fun he => absurd (he ▸ h) (by decide)

theorem parseValue_natToDigits (f : Nat) (n : Nat) (rest : List Char)
    (hrest : ∀ c, rest.head? = some c → isDigitChar c = false)
    (hff : floatFollows rest = false) :
    parseValue (f + 1) (natToDigits n ++ rest) = some (.num (Int.ofNat n), rest) := by
  obtain ⟨d, ds, hds, hdig⟩ := natToDigits_shape n
  obtain ⟨e1, e2, e3, e4, e5, e6⟩ := isDigitChar_not_syms hdig
  rw [hds, List.cons_append]
  simp only [parseValue]
  rw [skipWs_not_ws (isJsonWs_digit hdig)]
  simp only [e1, e2, e3, e4, e5, e6, if_false]
  rw [← List.cons_append, ← hds, parseNumber_nat n rest hrest hff]

theorem parseValue_ws (f : Nat) (l : List Char) :
    parseValue (f + 1) (' ' :: l) = parseValue (f + 1) l := by
  simp only [parseValue]
  rw [skipWs_space]

theorem pm_step_str (g : Nat) (acc : JsonPairs) (k s : List Char) (tail : List Char) :
    parseMembers (g + 2) acc (dumpStr k ++ ':' :: ' ' :: (dumpStr s ++ ',' :: ' ' :: tail))
      = parseMembers (g + 1) (dictInsert acc k (.str s)) (' ' :: tail) := by
  have hshape : dumpStr k ++ ':' :: ' ' :: (dumpStr s ++ ',' :: ' ' :: tail)
      = '\"' :: (escapeStr k ++ '\"' :: (':' :: ' ' :: (dumpStr s ++ ',' :: ' ' :: tail))) := by
    rw [dumpStr]
    simp
  rw [hshape]
  simp only [parseMembers]
  rw [skipWs_not_ws (by decide)]
  simp [parseStringBody_escape, parseValue_ws, parseValue_dumpStr, skipWs, isJsonWs]

theorem pm_last_num (g : Nat) (acc : JsonPairs) (k : List Char) (n : Nat) (rest : List Char) :
    parseMembers (g + 2) acc (dumpStr k ++ ':' :: ' ' :: (natToDigits n ++ '\x7d' :: rest))
      = some (.obj (dictInsert acc k (.num (Int.ofNat n))), rest) := by
  have hshape : dumpStr k ++ ':' :: ' ' :: (natToDigits n ++ '\x7d' :: rest)
      = '\"' :: (escapeStr k ++ '\"' :: (':' :: ' ' :: (natToDigits n ++ '\x7d' :: rest))) := by
    rw [dumpStr]
    simp
  rw [hshape]
  simp only [parseMembers]
  rw [skipWs_not_ws (by decide)]
  have hpv : parseValue (g + 1) (natToDigits n ++ '\x7d' :: rest)
      = some (.num (Int.ofNat n), '\x7d' :: rest) := by
    refine parseValue_natToDigits g n _ ?_ rfl
    intro c hc
    simp only [List.head?] at hc
    injection hc with hc2
    rw [← hc2]
    decide
  simp [parseStringBody_escape, parseValue_ws, hpv, skipWs, isJsonWs]

/-- Key of the byte-order header field. -/
def hdrKeyByteorder : List Char := strL "byteorder"

/-- Key of the content-type header field. -/
def hdrKeyContentType : List Char := strL "content-type"

/-- Key of the content-encoding header field. -/
def hdrKeyContentEncoding : List Char := strL "content-encoding"

/-- Key of the content-length header field. -/
def hdrKeyContentLength : List Char := strL "content-length"

/-- The header mapping built by `_create_message`: a dict literal with the
four keys in source order. -/
def builderHeader (vB vT vE : Json) (clen : Int) : JsonPairs :=
  .cons hdrKeyByteorder vB
    (.cons hdrKeyContentType vT
      (.cons hdrKeyContentEncoding vE
        (.cons hdrKeyContentLength (.num clen) .nil)))

theorem parseMembers_ws (g : Nat) (acc : JsonPairs) (l : List Char) :
    parseMembers (g + 1) acc (' ' :: l) = parseMembers (g + 1) acc l := by
  simp only [parseMembers]
  rw [skipWs_space]

theorem parseValue_obj_enter (f : Nat) (k : List Char) (restm : List Char) :
    parseValue (f + 1) ('\x7b' :: (dumpStr k ++ restm))
      = parseMembers f .nil (dumpStr k ++ restm) := by
  have hshape : dumpStr k ++ restm = '\"' :: (escapeStr k ++ '\"' :: restm) := by
    rw [dumpStr]
    simp
  have hsk : skipWs (dumpStr k ++ restm) = dumpStr k ++ restm := by
    rw [hshape]
    exact skipWs_not_ws (by decide) _
  simp only [parseValue]
  rw [skipWs_not_ws (by decide)]
  simp only [hsk, hshape]
  rw [skipWs_not_ws (by decide)]
  simp

theorem parseValue_header (f : Nat) (B T E : List Char) (n : Nat) (rest : List Char) :
    parseValue (f + 6)
      (jsonDumps (.obj (builderHeader (.str B) (.str T) (.str E) (Int.ofNat n))) ++ rest)
      = some (.obj (builderHeader (.str B) (.str T) (.str E) (Int.ofNat n)), rest) := by
  have k1 : ¬ hdrKeyByteorder = hdrKeyContentType := by decide
  have k2 : ¬ hdrKeyByteorder = hdrKeyContentEncoding := by decide
  have k3 : ¬ hdrKeyByteorder = hdrKeyContentLength := by decide
  have k4 : ¬ hdrKeyContentType = hdrKeyContentEncoding := by decide
  have k5 : ¬ hdrKeyContentType = hdrKeyContentLength := by decide
  have k6 : ¬ hdrKeyContentEncoding = hdrKeyContentLength := by decide
  simp only [builderHeader, jsonDumps, dumpMembers, dumpInt_ofNat]
  simp only [List.append_assoc, List.cons_append, List.nil_append]
  rw [show f + 6 = (f + 5) + 1 from rfl, parseValue_obj_enter]
  rw [show f + 5 = (f + 3) + 2 from rfl, pm_step_str]
  rw [show (f + 3) + 1 = ((f + 2) + 1) + 1 from rfl, parseMembers_ws]
  rw [show (f + 2) + 1 + 1 = (f + 2) + 2 from rfl, pm_step_str]
  rw [show (f + 2) + 1 = ((f + 1) + 1) + 1 from rfl, parseMembers_ws]
  rw [show (f + 1) + 1 + 1 = (f + 1) + 2 from rfl, pm_step_str]
  rw [show (f + 1) + 1 = (f + 1) + 1 from rfl, parseMembers_ws]
  rw [show f + 1 + 1 = f + 2 from rfl, pm_last_num]
  simp [dictInsert, k1, k2, k3, k4, k5, k6]

theorem jsonParse_header (B T E : List Char) (n : Nat) :
    jsonParse (jsonDumps (.obj (builderHeader (.str B) (.str T) (.str E) (Int.ofNat n))))
      = some (.obj (builderHeader (.str B) (.str T) (.str E) (Int.ofNat n))) := by
  have hlen : 5 ≤ (jsonDumps (.obj (builderHeader (.str B) (.str T) (.str E)
      (Int.ofNat n)))).length := by
    simp only [builderHeader, jsonDumps, dumpMembers, dumpStr]
    simp [List.length_append]
    omega
  obtain ⟨f, hf⟩ : ∃ f, (jsonDumps (.obj (builderHeader (.str B) (.str T) (.str E)
      (Int.ofNat n)))).length + 1 = f + 6 :=
    ⟨(jsonDumps (.obj (builderHeader (.str B) (.str T) (.str E) (Int.ofNat n)))).length - 5,
      by omega⟩
  rw [jsonParse, hf]
  have hp := parseValue_header f B T E n []
  rw [List.append_nil] at hp
  rw [hp]
  simp [skipWs]

theorem jsonDecodeBytes_header (B T E : List Char) (n : Nat) :
    jsonDecodeBytes (utf8Encode (jsonDumps (.obj (builderHeader (.str B) (.str T) (.str E)
        (Int.ofNat n)))))
      = some (.obj (builderHeader (.str B) (.str T) (.str E) (Int.ofNat n))) := by
  rw [jsonDecodeBytes, jsonDecodeBytesWith, if_pos rfl, utf8Decode_encode]
  exact jsonParse_header B T E n

/-! ## The connection framer

The `Server` class of `src/libstoplight.py`, with one field per attribute
that carries semantics, plus the socket and selector-registration state of
the external collaborators its methods touch. The `addr` and `verbose`
attributes only affect logging and the unused `_jsonheader` attribute is
never read, so they are omitted. -/

/-- Selector interest mask, as set by `_set_selector_events_mask` with modes
r, w and rw. -/
inductive Mask where
  | r : Mask
  | w : Mask
  | rw : Mask
deriving DecidableEq

/-- Kinds of Python exception the modelled code can raise. -/
inductive ProtoError where
  | typeError : ProtoError
  | keyError : ProtoError
  | valueError : ProtoError
  | missingRequiredHeader (field : List Char) : ProtoError
  | structError : ProtoError
  | peerClosed : ProtoError
  | attributeError : ProtoError

/-- The request value: a decoded JSON value for `text/json` content, raw
bytes otherwise. -/
inductive Request where
  | json (v : Json) : Request
  | bytes (b : List Nat) : Request

/-- Per-connection state. -/
structure Server where
  recvBuffer : List Nat
  sendBuffer : List Nat
  jsonheaderLen : Option Nat
  jsonheader : Option Json
  request : Option Request
  responseCreated : Bool
  eventsMask : Mask
  sock : Bool
  registered : Bool

/-- A raised Python exception together with the object state at raise time:
the object survives the exception, so mutations made before the raise stay
visible. -/
abbrev Err := ProtoError × Server

/-- Fresh connection as `__init__` leaves it.
Modelled from the spec: the accept glue that registers the socket with the
reactor for read events is not part of src/, so the fresh connection starts
registered with read interest. -/
def initServer : Server :=
  { recvBuffer := [], sendBuffer := [], jsonheaderLen := none, jsonheader := none,
    request := none, responseCreated := false, eventsMask := .r, sock := true,
    registered := true }

/-- Value of `sys.byteorder` on the little-endian hosts the program targets. -/
def sysByteorder : List Char := strL "little"

/-- Python truthiness of a JSON value. -/
def jsonTruthy : Json → Bool
  | .null => false
  | .bool b => b
  | .num i => decide (i ≠ 0)
  | .str s => !s.isEmpty
  | .arr xs => !jsonListIsEmpty xs
  | .obj kvs => !pairsIsEmpty kvs

/-- Truthiness of the optional header attribute: `None` is falsy. -/
def jsonOptTruthy : Option Json → Bool
  | none => false
  | some v => jsonTruthy v

/-- Python truthiness of the request attribute. -/
def requestTruthy : Option Request → Bool
  | none => false
  | some (.json v) => jsonTruthy v
  | some (.bytes b) => !b.isEmpty

/-- Python equality of a JSON value against a string: only an equal string
compares equal, any other value compares unequal. -/
def jsonEqStr (v : Json) (s : List Char) : Bool :=
  match v with
  | .str t => decide (t = s)
  | _ => false

/-- Python subscripting `value[key]` with a string key: dict lookup with
KeyError on a missing key, TypeError on any non-dict value. -/
def jsonSubscript (j : Json) (key : List Char) : Except ProtoError Json :=
  match j with
  | .obj kvs =>
    match pairsLookup kvs key with
    | some v => .ok v
    | none => .error .keyError
  | _ => .error .typeError

/-- Integer value of a JSON value in int contexts such as comparison and
slicing: a Python bool is an int subclass; other non-int values raise
TypeError there. -/
def jsonAsPyInt : Json → Option Int
  | .num i => some i
  | .bool b => some (if b then 1 else 0)
  | _ => none

/-- Python slice `l[:i]` for an int bound, including negative bounds. -/
def pySliceTake (l : List Nat) (i : Int) : List Nat :=
  if 0 ≤ i then l.take i.toNat else l.take (l.length - i.natAbs)

/-- Leading-match test used by the substring search. -/
def listStartsWith : List Char → List Char → Bool
  | [], _ => true
  | _ :: _, [] => false
  | p :: ps, c :: cs => decide (p = c) && listStartsWith ps cs

/-- Substring containment, as Python `in` behaves on strings. -/
def listHasSub (pat : List Char) : List Char → Bool
  | [] => pat.isEmpty
  | c :: rest => listStartsWith pat (c :: rest) || listHasSub pat rest

/-- Python membership `key in value` for a string key: dict key test,
substring test on strings, element equality on lists; TypeError otherwise. -/
def jsonContains (j : Json) (key : List Char) : Option Bool :=
  match j with
  | .obj kvs => some (pairsLookup kvs key).isSome
  | .str s => some (listHasSub key s)
  | .arr xs => some (jsonListHasStr xs key)
  | _ => none

/-- The required header fields, in the order `process_jsonheader` checks
them. -/
def requiredHeaders : List (List Char) :=
  [hdrKeyByteorder, hdrKeyContentLength, hdrKeyContentType, hdrKeyContentEncoding]

/-- The required-field loop of `process_jsonheader`: the first missing field,
a TypeError for non-container headers, or success. -/
def firstMissingAux (j : Json) : List (List Char) → Except ProtoError (Option (List Char))
  | [] => .ok none
  | k :: ks =>
    match jsonContains j k with
    | none => .error .typeError
    | some true => firstMissingAux j ks
    | some false => .ok (some k)

/-- Models `_set_selector_events_mask` calling `selector.modify`, which
raises KeyError when the socket is no longer registered. -/
def setSelectorEventsMask (m : Mask) (s : Server) : Except Err Server :=
  if s.registered then .ok { s with eventsMask := m } else .error (.keyError, s)

/-- Models `Server.close`: a `selector.unregister` failure is caught and
logged whatever it is; `self.sock.close()` raises AttributeError when the
socket reference has already been cleared to None (only OSError is caught);
the `finally` block clears the reference in every case. -/
def close (s : Server) : Except Err Server :=
  if s.sock then .ok { s with registered := false, sock := false }
  else .error (.attributeError, { s with registered := false })

/-- Models `Server._write`: one best-effort send. `accepted = none` is a
BlockingIOError (pass); `accepted = some sent` removes the sent prefix and
closes the connection when that send drained a previously nonempty buffer. -/
def underscoreWrite (accepted : Option Nat) (s : Server) : Except Err Server :=
  if s.sendBuffer.isEmpty then .ok s
  else
    match accepted with
    | none => .ok s
    | some sent =>
      let s1 := { s with sendBuffer := s.sendBuffer.drop sent }
      if sent ≠ 0 ∧ s1.sendBuffer.isEmpty then close s1 else .ok s1

/-- Models `Server._create_message`: build the header dict in source order,
serialize it with `_json_encode(..., "utf-8")`, pack its length with
`struct.pack` format `>H` (which raises struct.error for lengths not fitting
16 bits) and concatenate. A `None` content raises TypeError at
`len(content_bytes)` while the dict literal is being evaluated. -/
def createMessage (content_bytes : Option (List Nat)) (content_type : Option (List Char))
    (content_encoding : List Char) : Except ProtoError (List Nat) :=
  match content_bytes with
  | none => .error .typeError
  | some cb =>
    let hdr := Json.obj (builderHeader
      (.str sysByteorder)
      (match content_type with | some t => .str t | none => .null)
      (.str content_encoding)
      (Int.ofNat cb.length))
    let hb := utf8Encode (jsonDumps hdr)
    if hb.length < 65536 then .ok (packU16BE hb.length ++ hb ++ cb)
    else .error .structError

/-- The keyword arguments `create_response` passes to `_create_message`. -/
structure ResponseContent where
  content_bytes : Option (List Nat)
  content_type : Option (List Char)
  content_encoding : List Char

/-- Models `_create_response_json_content`: the stubbed business answer 1
serialized as JSON. -/
def createResponseJsonContent : ResponseContent :=
  { content_bytes := some (utf8Encode (jsonDumps (.obj (.cons (strL "result") (.num 1) .nil)))),
    content_type := some (strL "text/json"),
    content_encoding := strL "utf-8" }

/-- Models `_create_empty_response_content`: content bytes None, content type
None, encoding tag binary. -/
def createEmptyResponseContent : ResponseContent :=
  { content_bytes := none, content_type := none, content_encoding := strL "binary" }

/-- Models `process_protoheader`: once two bytes are buffered, consume them
as a big-endian unsigned 16-bit header length. -/
def processProtoheader (s : Server) : Server :=
  match s.recvBuffer with
  | b0 :: b1 :: rest =>
    { s with jsonheaderLen := some (unpackU16BE b0 b1), recvBuffer := rest }
  | _ => s

/-- Models `process_jsonheader`: once the full header span is buffered,
decode it as UTF-8 JSON (the object state is untouched if decoding raises),
then store the header and advance the buffer, then check the required fields,
raising ValueError on the first missing one with the mutations kept. -/
def processJsonheader (s : Server) : Except Err Server :=
  match s.jsonheaderLen with
  | none => .error (.typeError, s)
  | some hdrlen =>
    if hdrlen ≤ s.recvBuffer.length then
      match jsonDecodeBytes (s.recvBuffer.take hdrlen) with
      | none => .error (.valueError, s)
      | some j =>
        let s1 := { s with jsonheader := some j, recvBuffer := s.recvBuffer.drop hdrlen }
        match firstMissingAux j requiredHeaders with
        | .error e => .error (e, s1)
        | .ok (some fld) => .error (.missingRequiredHeader fld, s1)
        | .ok none => .ok s1
    else .ok s

/-- Models `process_request`: look up the content length, wait until that
many bytes are buffered, slice them, and either JSON-decode them in the
declared encoding or store the raw bytes and switch the selector to write
interest. The source never advances the receive buffer past the content
bytes, and the model mirrors that. -/
def processRequest (s : Server) : Except Err Server :=
  match s.jsonheader with
  | none => .error (.typeError, s)
  | some h =>
    match jsonSubscript h hdrKeyContentLength with
    | .error e => .error (e, s)
    | .ok clv =>
      match jsonAsPyInt clv with
      | none => .error (.typeError, s)
      | some clen =>
        if clen ≤ (s.recvBuffer.length : Int) then
          match jsonSubscript h hdrKeyContentType with
          | .error e => .error (e, s)
          | .ok ctv =>
            if jsonEqStr ctv (strL "text/json") then
              match jsonSubscript h hdrKeyContentEncoding with
              | .error e => .error (e, s)
              | .ok cev =>
                match cev with
                | .str enc =>
                  match jsonDecodeBytesWith enc (pySliceTake s.recvBuffer clen) with
                  | some v => .ok { s with request := some (.json v) }
                  | none => .error (.valueError, s)
                | _ => .error (.typeError, s)
            else
              setSelectorEventsMask .w
                { s with request := some (.bytes (pySliceTake s.recvBuffer clen)) }
        else .ok s

/-- The header-length stage with the guard `Server.read` puts around it. -/
def stage1 (s : Server) : Server :=
  if s.jsonheaderLen.isNone then processProtoheader s else s

/-- The payload stage with the guard `Server.read` puts around it. -/
def stage3 (s : Server) : Except Err Server :=
  if jsonOptTruthy s.jsonheader && s.request.isNone then processRequest s else .ok s

/-- The header stage followed by the payload stage, with their guards. -/
def stage23 (s : Server) : Except Err Server :=
  match (if s.jsonheaderLen.isSome && s.jsonheader.isNone
         then processJsonheader s else .ok s) with
  | .error e => .error e
  | .ok s2 => stage3 s2

/-- One pass of the three decode stages, with the guards `Server.read` puts
around them. -/
def process (s : Server) : Except Err Server :=
  stage23 (stage1 s)

/-- Models `Server.read` around one `_read`: `incoming = none` is a
BlockingIOError (pass), empty incoming bytes mean the peer closed
(RuntimeError), otherwise the data is appended; the stages then run. -/
def read (incoming : Option (List Nat)) (s : Server) : Except Err Server :=
  match incoming with
  | none => process s
  | some data =>
    if data.isEmpty then .error (.peerClosed, s)
    else process { s with recvBuffer := s.recvBuffer ++ data }

/-- Models `create_response`: dispatch on the declared content type, wrap the
chosen content with `_create_message`, then set the flag and append. -/
def createResponse (s : Server) : Except Err Server :=
  match s.jsonheader with
  | none => .error (.typeError, s)
  | some h =>
    match jsonSubscript h hdrKeyContentType with
    | .error e => .error (e, s)
    | .ok ctv =>
      let resp := if jsonEqStr ctv (strL "text/json")
                  then createResponseJsonContent else createEmptyResponseContent
      match createMessage resp.content_bytes resp.content_type resp.content_encoding with
      | .error e => .error (e, s)
      | .ok message =>
        .ok { s with responseCreated := true, sendBuffer := s.sendBuffer ++ message }

/-- Models `Server.write` around one `_write`: create the response when a
truthy request is pending and none was created yet, then try one send. -/
def write (accepted : Option Nat) (s : Server) : Except Err Server :=
  match (if requestTruthy s.request && !s.responseCreated
         then createResponse s else .ok s) with
  | .error e => .error e
  | .ok s1 => underscoreWrite accepted s1

/-- Deliver a sequence of chunks, one read-readiness event per chunk. -/
def feed (chunks : List (List Nat)) (s : Server) : Except Err Server :=
  match chunks with
  | [] => .ok s
  | c :: cs =>
    match read (some c) s with
    | .error e => .error e
    | .ok s1 => feed cs s1

/-- Success projection of a step result. -/
def getOk : Except Err Server → Option Server
  | .ok s => some s
  | .error _ => none

/-! ### Fragmentation: how appending further incoming bytes interacts with
the decode stages -/

/-- Append freshly received bytes at the tail of the receive buffer, as
`_read` does. -/
def appendRecv (d : List Nat) (s : Server) : Server :=
  { s with recvBuffer := s.recvBuffer ++ d }

@[simp] theorem appendRecv_recvBuffer (d : List Nat) (s : Server) :
    (appendRecv d s).recvBuffer = s.recvBuffer ++ d := rfl

@[simp] theorem appendRecv_jsonheaderLen (d : List Nat) (s : Server) :
    (appendRecv d s).jsonheaderLen = s.jsonheaderLen := rfl

@[simp] theorem appendRecv_jsonheader (d : List Nat) (s : Server) :
    (appendRecv d s).jsonheader = s.jsonheader := rfl

@[simp] theorem appendRecv_request (d : List Nat) (s : Server) :
    (appendRecv d s).request = s.request := rfl

@[simp] theorem appendRecv_registered (d : List Nat) (s : Server) :
    (appendRecv d s).registered = s.registered := rfl

theorem appendRecv_appendRecv (c d : List Nat) (s : Server) :
    appendRecv d (appendRecv c s) = appendRecv (c ++ d) s := by
  simp [appendRecv, List.append_assoc]

/-- The two monotonicity facts of the decode pipeline: a parsed header
implies a parsed header length, and a parsed request implies a parsed
header. -/
def StageInv (s : Server) : Prop :=
  (s.jsonheader.isSome → s.jsonheaderLen.isSome)
    ∧ (s.request.isSome → s.jsonheader.isSome)

/-- The parsed header, if any, declares a nonnegative content length. -/
def NoNegClen (s : Server) : Prop :=
  ∀ H clv ci, s.jsonheader = some H →
    jsonSubscript H hdrKeyContentLength = .ok clv →
    jsonAsPyInt clv = some ci → 0 ≤ ci

theorem pySliceTake_append (l d : List Nat) (i : Int) (h0 : 0 ≤ i)
    (hle : i ≤ (l.length : Int)) :
    pySliceTake (l ++ d) i = pySliceTake l i := by
  unfold pySliceTake
  rw [if_pos h0, if_pos h0]
  exact List.take_append_of_le_length (by omega)

theorem stage3_pres {s t : Server} (h : stage3 s = .ok t) :
    t.jsonheader = s.jsonheader ∧ t.jsonheaderLen = s.jsonheaderLen := by
  simp only [stage3, processRequest, setSelectorEventsMask] at h
  repeat' split at h
  all_goals try exact Except.noConfusion h
  all_goals injection h with h
  all_goals subst h
  all_goals exact ⟨rfl, rfl⟩

theorem processJsonheader_pres {s t : Server} (h : processJsonheader s = .ok t) :
    t.jsonheaderLen = s.jsonheaderLen := by
  simp only [processJsonheader] at h
  repeat' split at h
  all_goals try exact Except.noConfusion h
  all_goals injection h with h
  all_goals subst h
  all_goals rfl

theorem stage23_pres {s t : Server} (h : stage23 s = .ok t) :
    t.jsonheaderLen = s.jsonheaderLen := by
  unfold stage23 at h
  split at h
  · cases h
  · rename_i s2 heq
    split at heq
    · exact (stage3_pres h).2.trans (processJsonheader_pres heq)
    · injection heq with heq
      subst heq
      exact (stage3_pres h).2

theorem processRequest_pres {s t : Server} (h : processRequest s = .ok t) :
    t.jsonheader = s.jsonheader ∧ t.recvBuffer = s.recvBuffer
      ∧ t.jsonheaderLen = s.jsonheaderLen := by
  simp only [processRequest, setSelectorEventsMask] at h
  repeat' split at h
  all_goals try exact Except.noConfusion h
  all_goals injection h with h
  all_goals subst h
  all_goals exact ⟨rfl, rfl, rfl⟩

theorem jsonOptTruthy_isSome {o : Option Json} (h : jsonOptTruthy o = true) :
    o.isSome := by
  cases o with
  | none => exact absurd h (by simp [jsonOptTruthy])
  | some v => rfl

/-- Once the payload stage has succeeded on a state whose header declares a
nonnegative content length, appending further bytes first commutes with
running the stage. -/
theorem stage3_append (s t : Server) (d : List Nat)
    (hNeg : NoNegClen t) (h : stage3 s = .ok t) :
    stage3 (appendRecv d s) = stage3 (appendRecv d t) := by
  by_cases hg : (jsonOptTruthy s.jsonheader && s.request.isNone) = true
  · have hg12 := hg
    rw [Bool.and_eq_true] at hg12
    obtain ⟨hg1, hg2⟩ := hg12
    obtain ⟨H, hH⟩ := Option.isSome_iff_exists.mp (jsonOptTruthy_isSome hg1)
    have hreq : s.request = none := Option.isNone_iff_eq_none.mp hg2
    rw [stage3, if_pos hg] at h
    have hth : t.jsonheader = some H := (processRequest_pres h).1.trans hH
    cases hclE : jsonSubscript H hdrKeyContentLength with
    | error e =>
      simp only [processRequest, hH, hclE] at h
      exact Except.noConfusion h
    | ok clv =>
      cases hintE : jsonAsPyInt clv with
      | none =>
        simp only [processRequest, hH, hclE, hintE] at h
        exact Except.noConfusion h
      | some ci =>
        by_cases hle : ci ≤ (s.recvBuffer.length : Int)
        · have h0 : 0 ≤ ci := hNeg H clv ci hth hclE hintE
          have hslice : pySliceTake (s.recvBuffer ++ d) ci = pySliceTake s.recvBuffer ci :=
            pySliceTake_append _ _ _ h0 hle
          have hleL : ci ≤ ((s.recvBuffer ++ d).length : Int) := by
            rw [List.length_append]
            omega
          have hgL : (jsonOptTruthy (appendRecv d s).jsonheader
              && (appendRecv d s).request.isNone) = true := by
            simp only [appendRecv_jsonheader, appendRecv_request]
            exact hg
          simp only [processRequest, hH, hclE, hintE, if_pos hle] at h
          cases hctE : jsonSubscript H hdrKeyContentType with
          | error e =>
            simp only [hctE] at h
            exact Except.noConfusion h
          | ok ctv =>
            simp only [hctE] at h
            by_cases hj : jsonEqStr ctv (strL "text/json") = true
            · simp only [if_pos hj] at h
              cases hceE : jsonSubscript H hdrKeyContentEncoding with
              | error e =>
                simp only [hceE] at h
                exact Except.noConfusion h
              | ok cev =>
                simp only [hceE] at h
                cases cev with
                | null => simp at h
                | bool b => simp at h
                | num i => simp at h
                | arr xs => simp at h
                | obj kvs => simp at h
                | str enc =>
                  cases hdec : jsonDecodeBytesWith enc (pySliceTake s.recvBuffer ci) with
                  | none =>
                    simp only [hdec] at h
                    exact Except.noConfusion h
                  | some v =>
                    simp only [hdec] at h
                    injection h with h
                    subst h
                    rw [stage3, stage3, if_pos hgL, if_neg (by simp)]
                    simp only [processRequest, appendRecv_jsonheader, hH, hclE, hintE,
                      appendRecv_recvBuffer, if_pos hleL, hctE, if_pos hj, hceE, hslice, hdec]
                    simp [appendRecv]
            · rw [if_neg hj] at h
              set s9 : Server := { s with request := some (Request.bytes (pySliceTake s.recvBuffer ci)) } with hs9
              cases hregE : s.registered with
              | false =>
                simp [setSelectorEventsMask, hregE, hs9] at h
              | true =>
                rw [setSelectorEventsMask] at h
                rw [if_pos (show s9.registered = true from hregE)] at h
                injection h with h
                subst h
                rw [stage3, stage3, if_pos hgL, if_neg (by simp [hs9])]
                simp only [processRequest, appendRecv_jsonheader, hH, hclE, hintE,
                  appendRecv_recvBuffer, if_pos hleL, hctE, if_neg hj, hslice,
                  setSelectorEventsMask, hregE, hs9]
                simp [appendRecv, hregE]
        · simp only [processRequest, hH, hclE, hintE, if_neg hle] at h
          injection h with h
          subst h
          rfl
  · rw [stage3, if_neg hg] at h
    injection h with h
    subst h
    rfl

/-- The append-commutation property across the header and payload stages. -/
theorem stage23_append (s t : Server) (d : List Nat)
    (hreq2 : s.request.isSome → s.jsonheader.isSome)
    (hNeg : NoNegClen t) (h : stage23 s = .ok t) :
    stage23 (appendRecv d s) = stage23 (appendRecv d t) := by
  cases hH : s.jsonheader with
  | some H =>
    rw [stage23, if_neg (by simp [hH])] at h
    have h3 : stage3 s = .ok t := h
    have hpres := stage3_pres h3
    rw [stage23, if_neg (by simp [hH])]
    rw [stage23, if_neg (by simp [hpres.1, hH])]
    show stage3 (appendRecv d s) = stage3 (appendRecv d t)
    exact stage3_append s t d hNeg h3
  | none =>
    cases hLE : s.jsonheaderLen with
    | none =>
      rw [stage23, if_neg (by simp [hLE])] at h
      have h3 : stage3 s = .ok t := h
      rw [stage3, if_neg (by simp [hH, jsonOptTruthy])] at h3
      injection h3 with h3
      subst h3
      rfl
    | some L =>
      rw [stage23, if_pos (by simp [hLE, hH])] at h
      cases hpj : processJsonheader s with
      | error e =>
        rw [hpj] at h
        exact Except.noConfusion h
      | ok s2 =>
        rw [hpj] at h
        have h3 : stage3 s2 = .ok t := h
        by_cases hlen2 : L ≤ s.recvBuffer.length
        · simp only [processJsonheader, hLE, if_pos hlen2] at hpj
          cases hdec : jsonDecodeBytes (s.recvBuffer.take L) with
          | none =>
            simp only [hdec] at hpj
            exact Except.noConfusion hpj
          | some j =>
            simp only [hdec] at hpj
            cases hfm : firstMissingAux j requiredHeaders with
            | error e =>
              simp only [hfm] at hpj
              exact Except.noConfusion hpj
            | ok o =>
              cases o with
              | some fld =>
                simp only [hfm] at hpj
                exact Except.noConfusion hpj
              | none =>
                simp only [hfm] at hpj
                injection hpj with hpj
                subst hpj
                have hpres := stage3_pres h3
                have hlenL : L ≤ (s.recvBuffer ++ d).length := by
                  rw [List.length_append]
                  omega
                have htake : (s.recvBuffer ++ d).take L = s.recvBuffer.take L :=
                  List.take_append_of_le_length hlen2
                have hdrop : (s.recvBuffer ++ d).drop L = s.recvBuffer.drop L ++ d :=
                  List.drop_append_of_le_length hlen2
                rw [stage23, if_pos (by simp [hLE, hH])]
                rw [show processJsonheader (appendRecv d s)
                    = .ok (appendRecv d
                        { s with jsonheaderLen := some L, jsonheader := some j,
                                 recvBuffer := s.recvBuffer.drop L }) from by
                  simp only [processJsonheader, appendRecv_jsonheaderLen, hLE,
                    appendRecv_recvBuffer, if_pos hlenL, htake, hdec, hfm, hdrop]
                  simp [appendRecv, hLE]]
                rw [stage23, if_neg (by simp [hpres.1])]
                show stage3 (appendRecv d
                    { s with jsonheaderLen := some L, jsonheader := some j,
                             recvBuffer := s.recvBuffer.drop L })
                  = stage3 (appendRecv d t)
                exact stage3_append _ t d hNeg h3
        · simp only [processJsonheader, hLE, if_neg hlen2] at hpj
          injection hpj with hpj
          subst hpj
          rw [stage3, if_neg (by simp [hH, jsonOptTruthy])] at h3
          injection h3 with h3
          subst h3
          rfl

/-- Appending further incoming bytes commutes with a successful full pass of
the decode pipeline: running the pipeline first and appending afterwards
gives the same continuation. -/
theorem process_append (s t : Server) (d : List Nat)
    (hInv : StageInv s) (hNeg : NoNegClen t) (h : process s = .ok t) :
    process (appendRecv d s) = process (appendRecv d t) := by
  cases hLE : s.jsonheaderLen with
  | some L =>
    rw [process, show stage1 s = s from by rw [stage1, if_neg (by simp [hLE])]] at h
    have hlt := stage23_pres h
    rw [process, show stage1 (appendRecv d s) = appendRecv d s from by
      rw [stage1, if_neg (by simp [hLE])]]
    rw [process, show stage1 (appendRecv d t) = appendRecv d t from by
      rw [stage1, if_neg (by simp [hlt, hLE])]]
    exact stage23_append s t d hInv.2 hNeg h
  | none =>
    have hHn : s.jsonheader = none := by
      cases hh : s.jsonheader with
      | none => rfl
      | some H => exact absurd (hInv.1 (by rw [hh]; rfl)) (by rw [hLE]; simp)
    have hreqn : s.request = none := by
      cases hr : s.request with
      | none => rfl
      | some r => exact absurd (hInv.2 (by rw [hr]; rfl)) (by rw [hHn]; simp)
    rcases hrb : s.recvBuffer with _ | ⟨b0, _ | ⟨b1, rest⟩⟩
    · have hps : process s = .ok s := by
        rw [process, show stage1 s = s from by
          rw [stage1, if_pos (by simp [hLE]), processProtoheader, hrb]]
        rw [stage23, if_neg (by simp [hLE])]
        show stage3 s = .ok s
        rw [stage3, if_neg (by simp [hHn, jsonOptTruthy])]
      have h' := hps.symm.trans h
      injection h' with h'
      subst h'
      rfl
    · have hps : process s = .ok s := by
        rw [process, show stage1 s = s from by
          rw [stage1, if_pos (by simp [hLE]), processProtoheader, hrb]]
        rw [stage23, if_neg (by simp [hLE])]
        show stage3 s = .ok s
        rw [stage3, if_neg (by simp [hHn, jsonOptTruthy])]
      have h' := hps.symm.trans h
      injection h' with h'
      subst h'
      rfl
    · have hx : stage1 s
          = { s with jsonheaderLen := some (unpackU16BE b0 b1), recvBuffer := rest } := by
        rw [stage1, if_pos (by simp [hLE]), processProtoheader, hrb]
      rw [process, hx] at h
      have hlt := stage23_pres h
      have hxL : stage1 (appendRecv d s)
          = appendRecv d { s with jsonheaderLen := some (unpackU16BE b0 b1),
                                  recvBuffer := rest } := by
        rw [stage1, if_pos (by simp [hLE]), processProtoheader]
        rw [show (appendRecv d s).recvBuffer = b0 :: b1 :: (rest ++ d) from by
          rw [appendRecv_recvBuffer, hrb]
          rfl]
        rfl
      rw [process, hxL]
      rw [process, show stage1 (appendRecv d t) = appendRecv d t from by
        rw [stage1, if_neg (by simp [hlt])]]
      exact stage23_append _ t d (fun hrs => absurd hrs (by simp [hreqn])) hNeg h

/-- If the payload stage succeeds on a state extended with further incoming
bytes, into a state whose header declares a nonnegative content length, it
also runs without error on the unextended state. -/
theorem stage3_prefix (x u : Server) (d : List Nat)
    (hNeg : NoNegClen u) (h : stage3 (appendRecv d x) = .ok u) :
    ∃ t, stage3 x = .ok t := by
  by_cases hg : (jsonOptTruthy x.jsonheader && x.request.isNone) = true
  · obtain ⟨H, hH⟩ := Option.isSome_iff_exists.mp (jsonOptTruthy_isSome (by
      have hg12 := hg
      rw [Bool.and_eq_true] at hg12
      exact hg12.1))
    have hgL : (jsonOptTruthy (appendRecv d x).jsonheader
        && (appendRecv d x).request.isNone) = true := by
      simp only [appendRecv_jsonheader, appendRecv_request]
      exact hg
    rw [stage3, if_pos hgL] at h
    have hu : u.jsonheader = some H :=
      (processRequest_pres h).1.trans ((appendRecv_jsonheader d x).trans hH)
    rw [stage3, if_pos hg]
    cases hclE : jsonSubscript H hdrKeyContentLength with
    | error e =>
      simp only [processRequest, appendRecv_jsonheader, hH, hclE] at h
      exact Except.noConfusion h
    | ok clv =>
      cases hintE : jsonAsPyInt clv with
      | none =>
        simp only [processRequest, appendRecv_jsonheader, hH, hclE, hintE] at h
        exact Except.noConfusion h
      | some ci =>
        have h0 : 0 ≤ ci := hNeg H clv ci hu hclE hintE
        by_cases hle : ci ≤ (x.recvBuffer.length : Int)
        · have hleL : ci ≤ ((x.recvBuffer ++ d).length : Int) := by
            rw [List.length_append]
            omega
          have hslice : pySliceTake (x.recvBuffer ++ d) ci = pySliceTake x.recvBuffer ci :=
            pySliceTake_append _ _ _ h0 hle
          simp only [processRequest, appendRecv_jsonheader, appendRecv_recvBuffer, hH,
            hclE, hintE, if_pos hleL, hslice] at h
          simp only [processRequest, hH, hclE, hintE, if_pos hle]
          cases hctE : jsonSubscript H hdrKeyContentType with
          | error e =>
            simp only [hctE] at h
            exact Except.noConfusion h
          | ok ctv =>
            simp only [hctE] at h ⊢
            by_cases hj : jsonEqStr ctv (strL "text/json") = true
            · simp only [if_pos hj] at h ⊢
              cases hceE : jsonSubscript H hdrKeyContentEncoding with
              | error e =>
                simp only [hceE] at h
                exact Except.noConfusion h
              | ok cev =>
                simp only [hceE] at h ⊢
                cases cev with
                | null => simp at h
                | bool b => simp at h
                | num i => simp at h
                | arr xs => simp at h
                | obj kvs => simp at h
                | str enc =>
                  cases hdec : jsonDecodeBytesWith enc (pySliceTake x.recvBuffer ci) with
                  | none =>
                    simp only [hdec] at h
                    exact Except.noConfusion h
                  | some v =>
                    exact ⟨{ x with jsonheader := some H, request := some (.json v) },
                      by simp only [hdec]⟩
            · simp only [if_neg hj] at h ⊢
              cases hregE : x.registered with
              | false =>
                simp [setSelectorEventsMask, hregE] at h
              | true =>
                refine ⟨{ x with
                  jsonheader := some H,
                  request := some (.bytes (pySliceTake x.recvBuffer ci)),
                  eventsMask := Mask.w }, ?_⟩
                simp [setSelectorEventsMask, hregE]
        · exact ⟨x, by simp only [processRequest, hH, hclE, hintE, if_neg hle]⟩
  · exact ⟨x, by rw [stage3, if_neg hg]⟩

/-- If the header and payload stages succeed on a state extended with
further incoming bytes, they run without error on the unextended state,
whose result either has no parsed header yet or agrees with the extended
run about it. -/
theorem stage23_prefix (x u : Server) (d : List Nat) (L : Nat)
    (hL : x.jsonheaderLen = some L)
    (hreq2 : x.request.isSome → x.jsonheader.isSome)
    (hNeg : NoNegClen u)
    (h : stage23 (appendRecv d x) = .ok u) :
    ∃ t, stage23 x = .ok t
      ∧ (t.jsonheader = none ∨ t.jsonheader = u.jsonheader) := by
  cases hH : x.jsonheader with
  | some H =>
    rw [stage23, if_neg (by simp [hH])] at h
    have h3 : stage3 (appendRecv d x) = .ok u := h
    obtain ⟨t, ht⟩ := stage3_prefix x u d hNeg h3
    refine ⟨t, ?_, Or.inr ?_⟩
    · rw [stage23, if_neg (by simp [hH])]
      exact ht
    · have h1 := (stage3_pres ht).1
      have h2 := (stage3_pres h3).1
      rw [h1, h2, appendRecv_jsonheader]
  | none =>
    by_cases hlen2 : L ≤ x.recvBuffer.length
    · have hlenL : L ≤ (x.recvBuffer ++ d).length := by
        rw [List.length_append]
        omega
      have htake : (x.recvBuffer ++ d).take L = x.recvBuffer.take L :=
        List.take_append_of_le_length hlen2
      have hdrop : (x.recvBuffer ++ d).drop L = x.recvBuffer.drop L ++ d :=
        List.drop_append_of_le_length hlen2
      rw [stage23, if_pos (by simp [hL, hH])] at h
      cases hpjL : processJsonheader (appendRecv d x) with
      | error e2 =>
        rw [hpjL] at h
        exact Except.noConfusion h
      | ok s2 =>
        rw [hpjL] at h
        have h3 : stage3 s2 = .ok u := h
        simp only [processJsonheader, appendRecv_jsonheaderLen, hL,
          appendRecv_recvBuffer, if_pos hlenL, htake, hdrop] at hpjL
        cases hdec : jsonDecodeBytes (x.recvBuffer.take L) with
        | none =>
          simp only [hdec] at hpjL
          exact Except.noConfusion hpjL
        | some j =>
          simp only [hdec] at hpjL
          cases hfm : firstMissingAux j requiredHeaders with
          | error e =>
            simp only [hfm] at hpjL
            exact Except.noConfusion hpjL
          | ok o =>
            cases o with
            | some fld =>
              simp only [hfm] at hpjL
              exact Except.noConfusion hpjL
            | none =>
              simp only [hfm] at hpjL
              injection hpjL with hpjL
              subst hpjL
              have h4 : stage3 (appendRecv d
                  { x with jsonheaderLen := some L, jsonheader := some j,
                           recvBuffer := x.recvBuffer.drop L }) = .ok u := h3
              have hpjx : processJsonheader x
                  = .ok { x with jsonheaderLen := some L, jsonheader := some j,
                                 recvBuffer := x.recvBuffer.drop L } := by
                simp only [processJsonheader, hL, if_pos hlen2, hdec, hfm]
              obtain ⟨t, ht⟩ := stage3_prefix _ u d hNeg h4
              refine ⟨t, ?_, Or.inr ?_⟩
              · rw [stage23, if_pos (by simp [hL, hH]), hpjx]
                exact ht
              · have h1 := (stage3_pres ht).1
                have h2 := (stage3_pres h4).1
                rw [h1, h2, appendRecv_jsonheader]
    · have hpjx : processJsonheader x = .ok x := by
        simp [processJsonheader, hL, hlen2]
      refine ⟨x, ?_, Or.inl hH⟩
      rw [stage23, if_pos (by simp [hL, hH]), hpjx]
      show stage3 x = .ok x
      rw [stage3, if_neg (by simp [hH, jsonOptTruthy])]

/-- If a full pass of the decode pipeline succeeds on a state extended with
`p ++ d`, it also succeeds when only `p` has arrived, reaching a state that
either has not parsed a header yet or agrees with the longer run about it. -/
theorem process_prefix (s u : Server) (p d : List Nat)
    (hInv : StageInv s) (hNeg : NoNegClen u)
    (h : process (appendRecv (p ++ d) s) = .ok u) :
    ∃ t, process (appendRecv p s) = .ok t
      ∧ (t.jsonheader = none ∨ t.jsonheader = u.jsonheader) := by
  rw [← appendRecv_appendRecv p d s] at h
  cases hLE : s.jsonheaderLen with
  | some L =>
    rw [process, show stage1 (appendRecv d (appendRecv p s))
        = appendRecv d (appendRecv p s) from by
      rw [stage1, if_neg (by simp [hLE])]] at h
    obtain ⟨t, ht1, ht2⟩ :=
      stage23_prefix (appendRecv p s) u d L (by simp [hLE]) hInv.2 hNeg h
    refine ⟨t, ?_, ht2⟩
    rw [process, show stage1 (appendRecv p s) = appendRecv p s from by
      rw [stage1, if_neg (by simp [hLE])]]
    exact ht1
  | none =>
    have hHn : s.jsonheader = none := by
      cases hh : s.jsonheader with
      | none => rfl
      | some H => exact absurd (hInv.1 (by rw [hh]; rfl)) (by rw [hLE]; simp)
    have hreqn : s.request = none := by
      cases hr : s.request with
      | none => rfl
      | some r => exact absurd (hInv.2 (by rw [hr]; rfl)) (by rw [hHn]; simp)
    rcases hrb : s.recvBuffer ++ p with _ | ⟨b0, _ | ⟨b1, rest⟩⟩
    · refine ⟨appendRecv p s, ?_, Or.inl (by simp [hHn])⟩
      rw [process, show stage1 (appendRecv p s) = appendRecv p s from by
        rw [stage1, if_pos (by simp [hLE]), processProtoheader, appendRecv_recvBuffer, hrb]]
      rw [stage23, if_neg (by simp [hLE])]
      show stage3 (appendRecv p s) = .ok (appendRecv p s)
      rw [stage3, if_neg (by simp [hHn, jsonOptTruthy])]
    · refine ⟨appendRecv p s, ?_, Or.inl (by simp [hHn])⟩
      rw [process, show stage1 (appendRecv p s) = appendRecv p s from by
        rw [stage1, if_pos (by simp [hLE]), processProtoheader, appendRecv_recvBuffer, hrb]]
      rw [stage23, if_neg (by simp [hLE])]
      show stage3 (appendRecv p s) = .ok (appendRecv p s)
      rw [stage3, if_neg (by simp [hHn, jsonOptTruthy])]
    · have hxS : stage1 (appendRecv p s)
          = { s with jsonheaderLen := some (unpackU16BE b0 b1), recvBuffer := rest } := by
        rw [stage1, if_pos (by simp [hLE]), processProtoheader]
        rw [show (appendRecv p s).recvBuffer = b0 :: b1 :: rest from by
          rw [appendRecv_recvBuffer, hrb]]
        rfl
      have hxL : stage1 (appendRecv d (appendRecv p s))
          = appendRecv d { s with jsonheaderLen := some (unpackU16BE b0 b1),
                                  recvBuffer := rest } := by
        rw [stage1, if_pos (by simp [hLE]), processProtoheader]
        rw [show (appendRecv d (appendRecv p s)).recvBuffer = b0 :: b1 :: (rest ++ d)
          from by simp [hrb]]
        rfl
      rw [process, hxL] at h
      obtain ⟨t, ht1, ht2⟩ := stage23_prefix _ u d (unpackU16BE b0 b1) rfl
        (fun hr => absurd hr (by simp [hreqn])) hNeg h
      refine ⟨t, ?_, ht2⟩
      rw [process, hxS]
      exact ht1

/-- A successful pass of the decode pipeline preserves the pipeline
monotonicity invariant. -/
theorem process_inv {s t : Server} (hInv : StageInv s) (h : process s = .ok t) :
    StageInv t := by
  rw [process] at h
  set x := stage1 s with hx
  have hInvX : StageInv x := by
    rw [hx, stage1]
    split
    · rename_i hLn
      have hLn' := Option.isNone_iff_eq_none.mp hLn
      have hRn : s.request = none := by
        cases hr : s.request with
        | none => rfl
        | some r =>
          have hHs := hInv.2 (by rw [hr]; rfl)
          have hLs := hInv.1 hHs
          rw [hLn'] at hLs
          exact absurd hLs (by simp)
      rw [processProtoheader]
      split
      · constructor
        · exact fun _ => rfl
        · intro hh
          exact absurd hh (by simp [hRn])
      · exact hInv
    · exact hInv
  rw [stage23] at h
  split at h
  · exact Except.noConfusion h
  · rename_i s2 heq
    have hInv2 : StageInv s2 := by
      split at heq
      · rename_i hg
        rw [Bool.and_eq_true] at hg
        simp only [processJsonheader] at heq
        repeat' split at heq
        all_goals try exact Except.noConfusion heq
        all_goals injection heq with heq
        all_goals subst heq
        all_goals first
          | exact hInvX
          | exact ⟨fun _ => hg.1, fun _ => rfl⟩
      · injection heq with heq
        subst heq
        exact hInvX
    rw [stage3] at h
    split at h
    · rename_i hg3
      rw [Bool.and_eq_true] at hg3
      have hp := processRequest_pres h
      constructor
      · intro hh
        rw [hp.1] at hh
        rw [hp.2.2]
        exact hInv2.1 hh
      · intro _
        rw [hp.1]
        exact jsonOptTruthy_isSome hg3.1
    · injection h with h
      subst h
      exact hInv2

theorem noNegClen_none {t : Server} (h : t.jsonheader = none) : NoNegClen t :=
  fun _ _ _ hH => absurd (h.symm.trans hH) (by simp)

theorem noNegClen_of_header {t u : Server} (h : t.jsonheader = u.jsonheader)
    (hNeg : NoNegClen u) : NoNegClen t :=
  fun H clv ci hH hcl hint => hNeg H clv ci (h.symm.trans hH) hcl hint

theorem read_some_ne_nil (c : List Nat) (s : Server) (hc : c ≠ []) :
    read (some c) s = process (appendRecv c s) := by
  cases c with
  | nil => exact absurd rfl hc
  | cons a as => rfl

/-- Chunked delivery of a byte sequence ends in the same state as one-shot
delivery, provided the one-shot pass succeeds and parses a header with
nonnegative content length (or none at all). -/
theorem feed_of_process (cs : List (List Nat)) :
    ∀ s sF : Server, (∀ c ∈ cs, c ≠ []) → StageInv s → NoNegClen sF →
      process (appendRecv cs.join s) = .ok sF → cs ≠ [] → feed cs s = .ok sF := by
  induction cs with
  | nil =>
    intro s sF _ _ _ _ hcs
    exact absurd rfl hcs
  | cons c cs' ih =>
    intro s sF hne hInv hNeg h _
    have hc : c ≠ [] := hne c (by simp)
    cases cs' with
    | nil =>
      have h1 : process (appendRecv c s) = .ok sF := by
        have : ([c] : List (List Nat)).join = c := by simp
        rw [this] at h
        exact h
      have hread : read (some c) s = .ok sF := (read_some_ne_nil c s hc).trans h1
      simp only [feed, hread]
    | cons c2 cs'' =>
      rw [show (c :: c2 :: cs'').join = c ++ (c2 :: cs'').join from by simp] at h
      obtain ⟨t, ht1, ht2⟩ := process_prefix s sF c ((c2 :: cs'').join) hInv hNeg h
      have hNt : NoNegClen t := by
        cases ht2 with
        | inl hnone => exact noNegClen_none hnone
        | inr heq => exact noNegClen_of_header heq hNeg
      have hcomm := process_append (appendRecv c s) t ((c2 :: cs'').join)
        (show StageInv (appendRecv c s) from hInv) hNt ht1
      rw [appendRecv_appendRecv] at hcomm
      have h2 : process (appendRecv ((c2 :: cs'').join) t) = .ok sF := hcomm.symm.trans h
      have hInvT : StageInv t := process_inv (show StageInv (appendRecv c s) from hInv) ht1
      have hread : read (some c) s = .ok t := (read_some_ne_nil c s hc).trans ht1
      have htail := ih t sF (fun d hd => hne d (by simp [hd])) hInvT hNeg h2 (by simp)
      show (match read (some c) s with
        | .error e => Except.error e
        | .ok s1 => feed (c2 :: cs'') s1) = .ok sF
      rw [hread]
      exact htail

/-! ### Facts about the header object the message builder produces, and
about the required-field check -/

theorem builderHeader_lookup (vB vT vE : Json) (cl : Int) :
    pairsLookup (builderHeader vB vT vE cl) hdrKeyByteorder = some vB
    ∧ pairsLookup (builderHeader vB vT vE cl) hdrKeyContentType = some vT
    ∧ pairsLookup (builderHeader vB vT vE cl) hdrKeyContentEncoding = some vE
    ∧ pairsLookup (builderHeader vB vT vE cl) hdrKeyContentLength = some (.num cl) := by
  have k1 : ¬ hdrKeyByteorder = hdrKeyContentType := by decide
  have k2 : ¬ hdrKeyByteorder = hdrKeyContentEncoding := by decide
  have k3 : ¬ hdrKeyByteorder = hdrKeyContentLength := by decide
  have k4 : ¬ hdrKeyContentType = hdrKeyContentEncoding := by decide
  have k5 : ¬ hdrKeyContentType = hdrKeyContentLength := by decide
  have k6 : ¬ hdrKeyContentEncoding = hdrKeyContentLength := by decide
  refine ⟨?_, ?_, ?_, ?_⟩ <;>
    simp [builderHeader, pairsLookup, k1, k2, k3, k4, k5, k6]

theorem firstMissing_builderHeader (vB vT vE : Json) (cl : Int) :
    firstMissingAux (.obj (builderHeader vB vT vE cl)) requiredHeaders = .ok none := by
  obtain ⟨h1, h2, h3, h4⟩ := builderHeader_lookup vB vT vE cl
  simp [requiredHeaders, firstMissingAux, jsonContains, h1, h2, h3, h4]

theorem firstMissing_of_missing (kvs : JsonPairs)
    (hmiss : pairsLookup kvs hdrKeyByteorder = none
      ∨ pairsLookup kvs hdrKeyContentLength = none
      ∨ pairsLookup kvs hdrKeyContentType = none
      ∨ pairsLookup kvs hdrKeyContentEncoding = none) :
    ∃ fld, firstMissingAux (.obj kvs) requiredHeaders = .ok (some fld) := by
  cases hbo : pairsLookup kvs hdrKeyByteorder with
  | none =>
    exact ⟨hdrKeyByteorder, by simp [requiredHeaders, firstMissingAux, jsonContains, hbo]⟩
  | some v1 =>
    cases hcl : pairsLookup kvs hdrKeyContentLength with
    | none =>
      exact ⟨hdrKeyContentLength,
        by simp [requiredHeaders, firstMissingAux, jsonContains, hbo, hcl]⟩
    | some v2 =>
      cases hct : pairsLookup kvs hdrKeyContentType with
      | none =>
        exact ⟨hdrKeyContentType,
          by simp [requiredHeaders, firstMissingAux, jsonContains, hbo, hcl, hct]⟩
      | some v3 =>
        cases hce : pairsLookup kvs hdrKeyContentEncoding with
        | none =>
          exact ⟨hdrKeyContentEncoding,
            by simp [requiredHeaders, firstMissingAux, jsonContains, hbo, hcl, hct, hce]⟩
        | some v4 =>
          exfalso
          rcases hmiss with h | h | h | h
          · exact Option.noConfusion (h.symm.trans hbo)
          · exact Option.noConfusion (h.symm.trans hcl)
          · exact Option.noConfusion (h.symm.trans hct)
          · exact Option.noConfusion (h.symm.trans hce)

/-- The header stage on a buffered span that decodes to an object lacking a
required key: the error is raised only after the header attribute and the
buffer head have been updated. -/
theorem processJsonheader_missing (s : Server) (L : Nat) (hb rest : List Nat)
    (kvs : JsonPairs)
    (hlen : s.jsonheaderLen = some L)
    (hbuf : s.recvBuffer = hb ++ rest)
    (hL : hb.length = L)
    (hdec : jsonDecodeBytes hb = some (.obj kvs))
    (hmiss : pairsLookup kvs hdrKeyByteorder = none
      ∨ pairsLookup kvs hdrKeyContentLength = none
      ∨ pairsLookup kvs hdrKeyContentType = none
      ∨ pairsLookup kvs hdrKeyContentEncoding = none) :
    ∃ fld, processJsonheader s
      = .error (.missingRequiredHeader fld,
          { s with jsonheader := some (.obj kvs), recvBuffer := rest }) := by
  obtain ⟨fld, hfm⟩ := firstMissing_of_missing kvs hmiss
  refine ⟨fld, ?_⟩
  have hle : L ≤ s.recvBuffer.length := by
    rw [hbuf, List.length_append]
    omega
  have htake : s.recvBuffer.take L = hb := by
    rw [hbuf, ← hL, List.take_left]
  have hdrop : s.recvBuffer.drop L = rest := by
    rw [hbuf, ← hL, List.drop_left]
  simp only [processJsonheader, hlen, if_pos hle, htake, hdec, hfm, hdrop]

/-! ### The claims -/

set_option maxRecDepth 1000000

/-- Wire bytes of a successful message build. -/
def wireOf (r : Except ProtoError (List Nat)) : List Nat :=
  match r with
  | .ok m => m
  | .error _ => []

/-- The connection state carried by a step result, successful or raised. -/
def stateOf (r : Except Err Server) : Server :=
  match r with
  | .ok s => s
  | .error (_, s) => s

/-- C8: whenever the header length is unset, the header-length stage run by
`read` consumes exactly the first two buffered bytes as a big-endian
unsigned 16-bit integer, stores it as the header length and advances the
buffer head past them; with fewer than two bytes buffered it leaves the
state unchanged. -/
theorem c8_protoheader_stage (s : Server) (hlen : s.jsonheaderLen = none) :
    (∀ b0 b1 rest, s.recvBuffer = b0 :: b1 :: rest →
        stage1 s = { s with jsonheaderLen := some (b0 * 256 + b1), recvBuffer := rest })
      ∧ (s.recvBuffer.length < 2 → stage1 s = s) := by
  have hs : stage1 s = processProtoheader s := by
    rw [stage1, if_pos (by simp [hlen])]
  constructor
  · intro b0 b1 rest hb
    rw [hs]
    simp only [processProtoheader, hb]
    rfl
  · intro h2
    rw [hs]
    rcases hb : s.recvBuffer with _ | ⟨x, _ | ⟨y, r⟩⟩
    · simp [processProtoheader, hb]
    · simp [processProtoheader, hb]
    · rw [hb] at h2
      exact absurd h2 (by simp)

theorem c8_protoheader_stage_witness :
    stage1 { initServer with recvBuffer := [1, 2, 3] }
        = { initServer with jsonheaderLen := some 258, recvBuffer := [3] }
      ∧ stage1 { initServer with recvBuffer := [7] }
        = { initServer with recvBuffer := [7] } :=
  ⟨(c8_protoheader_stage { initServer with recvBuffer := [1, 2, 3] } rfl).1 1 2 [3] rfl,
   (c8_protoheader_stage { initServer with recvBuffer := [7] } rfl).2 (by decide)⟩

/-- C10: when the buffered header span decodes as a JSON object lacking a
required key, `process_jsonheader` raises with the connection state already
mutated: the buffer head has been advanced past the whole header span and
the header attribute already holds the decoded invalid mapping; nothing is
rolled back. -/
theorem c10_header_error_not_atomic (s : Server) (L : Nat) (hb rest : List Nat)
    (kvs : JsonPairs)
    (hlen : s.jsonheaderLen = some L)
    (hbuf : s.recvBuffer = hb ++ rest)
    (hL : hb.length = L)
    (hdec : jsonDecodeBytes hb = some (.obj kvs))
    (hmiss : pairsLookup kvs hdrKeyByteorder = none
      ∨ pairsLookup kvs hdrKeyContentLength = none
      ∨ pairsLookup kvs hdrKeyContentType = none
      ∨ pairsLookup kvs hdrKeyContentEncoding = none) :
    ∃ fld, processJsonheader s
      = .error (.missingRequiredHeader fld,
          { s with jsonheader := some (.obj kvs), recvBuffer := rest }) :=
  processJsonheader_missing s L hb rest kvs hlen hbuf hL hdec hmiss

/-- Header object with byteorder, content-length and content-type but no
content-encoding. -/
def c10Kvs : JsonPairs :=
  .cons (strL "byteorder") (.str (strL "little"))
    (.cons (strL "content-length") (.num 0)
      (.cons (strL "content-type") (.str (strL "text/json")) .nil))

theorem c10_header_error_not_atomic_witness :
    ∃ fld, processJsonheader
        { initServer with
          jsonheaderLen := some (utf8Encode (jsonDumps (.obj c10Kvs))).length,
          recvBuffer := utf8Encode (jsonDumps (.obj c10Kvs)) ++ [55] }
      = .error (.missingRequiredHeader fld,
          { initServer with
            jsonheaderLen := some (utf8Encode (jsonDumps (.obj c10Kvs))).length,
            jsonheader := some (.obj c10Kvs), recvBuffer := [55] }) :=
  c10_header_error_not_atomic _ _ _ [55] c10Kvs rfl rfl rfl rfl
    (Or.inr (Or.inr (Or.inr rfl)))

/-- C3: once the full header span is buffered, a header object missing a
required key makes the decode pass raise the missing-required-header
protocol error, and the state carried by the raise still has no extracted
payload. -/
theorem c3_required_field_rejection (s : Server) (L : Nat) (hb rest : List Nat)
    (kvs : JsonPairs)
    (hlen : s.jsonheaderLen = some L)
    (hhdr : s.jsonheader = none)
    (hreq : s.request = none)
    (hbuf : s.recvBuffer = hb ++ rest)
    (hL : hb.length = L)
    (hdec : jsonDecodeBytes hb = some (.obj kvs))
    (hmiss : pairsLookup kvs hdrKeyByteorder = none
      ∨ pairsLookup kvs hdrKeyContentLength = none
      ∨ pairsLookup kvs hdrKeyContentType = none
      ∨ pairsLookup kvs hdrKeyContentEncoding = none) :
    ∃ fld st, process s = .error (.missingRequiredHeader fld, st)
      ∧ st.request = none := by
  obtain ⟨fld, hpj⟩ := processJsonheader_missing s L hb rest kvs hlen hbuf hL hdec hmiss
  refine ⟨fld, { s with jsonheader := some (.obj kvs), recvBuffer := rest }, ?_, hreq⟩
  rw [process, show stage1 s = s from by rw [stage1, if_neg (by simp [hlen])]]
  rw [stage23, if_pos (by simp [hlen, hhdr]), hpj]

/-- Header object carrying only a byteorder. -/
def c3Kvs : JsonPairs := .cons (strL "byteorder") (.str (strL "little")) .nil

theorem c3_required_field_rejection_witness :
    ∃ fld st, process
        { initServer with
          jsonheaderLen := some (utf8Encode (jsonDumps (.obj c3Kvs))).length,
          recvBuffer := utf8Encode (jsonDumps (.obj c3Kvs)) }
      = .error (.missingRequiredHeader fld, st) ∧ st.request = none :=
  c3_required_field_rejection _ _ _ [] c3Kvs rfl rfl rfl (by simp) rfl rfl
    (Or.inr (Or.inl rfl))

/-- C7: with a parsed truthy header whose content type is anything other
than text/json and no payload yet, the payload stage run by `read` stores
the first content-length buffered bytes themselves, unmodified, as the
payload, and switches the selector interest to write events only. -/
theorem c7_passthrough (s : Server) (H : Json) (ctv : Json) (L : Nat)
    (hhdr : s.jsonheader = some H)
    (hreq : s.request = none)
    (htr : jsonTruthy H = true)
    (hcl : jsonSubscript H hdrKeyContentLength = .ok (.num (Int.ofNat L)))
    (hct : jsonSubscript H hdrKeyContentType = .ok ctv)
    (hne : jsonEqStr ctv (strL "text/json") = false)
    (hlen : L ≤ s.recvBuffer.length)
    (hreg : s.registered = true) :
    stage3 s = .ok { s with request := some (.bytes (s.recvBuffer.take L)),
                            eventsMask := .w } := by
  rw [stage3, if_pos (by simp [hhdr, jsonOptTruthy, htr, hreq])]
  have hle : Int.ofNat L ≤ (s.recvBuffer.length : Int) := by
    simp only [Int.ofNat_eq_coe]
    exact_mod_cast hlen
  have hslice : pySliceTake s.recvBuffer (Int.ofNat L) = s.recvBuffer.take L := by
    rw [pySliceTake, if_pos (show (0 : Int) ≤ Int.ofNat L from Int.ofNat_nonneg L)]
    simp
  simp only [processRequest, hhdr, hcl, jsonAsPyInt, if_pos hle, hct,
    if_neg (show ¬ (jsonEqStr ctv (strL "text/json") = true) from by simp [hne]),
    hslice, setSelectorEventsMask]
  rw [if_pos (show ({ s with request := some (Request.bytes (s.recvBuffer.take L)) } : Server).registered = true from hreg)]

theorem c7_passthrough_witness :
    stage3 { initServer with
        jsonheader := some (.obj (builderHeader (.str sysByteorder)
          (.str (strL "text/plain")) (.str (strL "binary")) 2)),
        recvBuffer := [10, 20, 30] }
      = .ok { initServer with
          jsonheader := some (.obj (builderHeader (.str sysByteorder)
            (.str (strL "text/plain")) (.str (strL "binary")) 2)),
          recvBuffer := [10, 20, 30],
          request := some (.bytes [10, 20]),
          eventsMask := .w } :=
  c7_passthrough _ _ _ 2 rfl rfl rfl rfl rfl rfl (by decide) rfl

/-- A two-byte opaque request wire message. -/
def c4Msg : List Nat :=
  wireOf (createMessage (some [104, 105])
    (some (strL "application/octet-stream")) (strL "binary"))

/-- The connection after reading the opaque request in one event. -/
def c4S : Server := stateOf (read (some c4Msg) initServer)

/-- C4: the unrecognized-content-type path of response synthesis does not
produce an empty-response message: `_create_message` evaluates
`len(content_bytes)` with `content_bytes = None` while building the header
dict and raises TypeError (the source's own comment says this path "is will
likely fail, and badly"); the connection errors instead, the flag stays
false, and nothing is appended to the outbound buffer. -/
theorem c4_empty_response_type_error :
    c4S.request = some (.bytes [104, 105])
      ∧ createMessage createEmptyResponseContent.content_bytes
          createEmptyResponseContent.content_type
          createEmptyResponseContent.content_encoding = .error .typeError
      ∧ createResponse c4S = .error (.typeError, c4S)
      ∧ write none c4S = .error (.typeError, c4S)
      ∧ c4S.responseCreated = false ∧ c4S.sendBuffer = [] :=
  ⟨rfl, rfl, rfl, rfl, rfl, rfl⟩

/-- C6 counterexample: the close operation is not a no-op the second time.
The first close succeeds (the unregister failure would be suppressed), but a
second close on the already-closed connection evaluates `self.sock.close()`
with the reference already cleared to None and raises AttributeError, which
the handler does not catch (it only catches OSError). -/
theorem c6_counterexample :
    close initServer = .ok { initServer with registered := false, sock := false }
      ∧ close { initServer with registered := false, sock := false }
        = .error (.attributeError,
            { initServer with registered := false, sock := false }) :=
  ⟨rfl, rfl⟩

/-- C6 amended: a send that drains a nonempty outbound buffer tears the
connection down exactly once, releasing the selector registration and the
socket in that same call; later write events on the drained connection are
no-ops that do not close again; but a second direct close of an
already-closed connection raises AttributeError rather than being a no-op
(only the unregister failure and OSError are suppressed). -/
theorem c6_teardown_amended (s : Server) (sent : Nat)
    (hbuf : s.sendBuffer ≠ [])
    (hsock : s.sock = true)
    (hsent : s.sendBuffer.length ≤ sent)
    (hpos : sent ≠ 0) :
    underscoreWrite (some sent) s
        = .ok { s with sendBuffer := [], registered := false, sock := false }
      ∧ (∀ t : Server, t.sendBuffer = [] → ∀ acc, underscoreWrite acc t = .ok t)
      ∧ (∀ t : Server, t.sock = false →
          close t = .error (.attributeError, { t with registered := false })) := by
  refine ⟨?_, ?_, ?_⟩
  · have hbE : s.sendBuffer.isEmpty = false := by
      cases hsb : s.sendBuffer with
      | nil => exact absurd hsb hbuf
      | cons a as => rfl
    have hdrop : s.sendBuffer.drop sent = [] := List.drop_eq_nil_of_le hsent
    rw [underscoreWrite.eq_def, if_neg (by simp [hbE])]
    show (if sent ≠ 0 ∧ ({ s with sendBuffer := s.sendBuffer.drop sent } : Server).sendBuffer.isEmpty
      then close { s with sendBuffer := s.sendBuffer.drop sent }
      else .ok { s with sendBuffer := s.sendBuffer.drop sent }) = _
    rw [hdrop]
    rw [if_pos ⟨hpos, rfl⟩]
    rw [close, if_pos (show ({ s with sendBuffer := ([] : List Nat) } : Server).sock = true from hsock)]
  · intro t ht acc
    rw [underscoreWrite.eq_def, if_pos (by simp [ht])]
  · intro t ht
    rw [close, if_neg (by simp [ht])]

theorem c6_teardown_amended_witness :
    underscoreWrite (some 1) { initServer with sendBuffer := [9] }
        = .ok { initServer with sendBuffer := [], registered := false, sock := false }
      ∧ underscoreWrite (some 5) { initServer with sendBuffer := [] }
        = .ok { initServer with sendBuffer := [] }
      ∧ close { initServer with sock := false }
        = .error (.attributeError,
            { initServer with sock := false, registered := false }) := by
  obtain ⟨h1, h2, h3⟩ := c6_teardown_amended { initServer with sendBuffer := [9] } 1
    (by simp) rfl (by simp) (by simp)
  exact ⟨h1, h2 { initServer with sendBuffer := [] } rfl (some 5),
    h3 { initServer with sock := false } rfl⟩

/-- The wire bytes of the synthesized JSON response. -/
def c5RespWire : List Nat :=
  wireOf (createMessage createResponseJsonContent.content_bytes
    createResponseJsonContent.content_type createResponseJsonContent.content_encoding)

/-- C5 amended: a write event synthesizes the response only when the request
attribute is truthy (not merely set) and the flag is unset; for a text/json
request the builder-wrapped result object is then appended to the outbound
buffer and the flag set before the send attempt; and once the flag is set, a
write event never creates another response. -/
theorem c5_response_once_amended (s : Server) (H : Json) (acc : Option Nat)
    (hreq : requestTruthy s.request = true)
    (hflag : s.responseCreated = false)
    (hhdr : s.jsonheader = some H)
    (hct : jsonSubscript H hdrKeyContentType = .ok (.str (strL "text/json"))) :
    (createMessage createResponseJsonContent.content_bytes
        createResponseJsonContent.content_type
        createResponseJsonContent.content_encoding = .ok c5RespWire
      ∧ write acc s = underscoreWrite acc
          { s with responseCreated := true, sendBuffer := s.sendBuffer ++ c5RespWire })
      ∧ (∀ t : Server, t.responseCreated = true → ∀ a, write a t = underscoreWrite a t) := by
  refine ⟨⟨rfl, ?_⟩, ?_⟩
  · have hcr : createResponse s
        = .ok { s with responseCreated := true,
                       sendBuffer := s.sendBuffer ++ c5RespWire } := by
      simp only [createResponse, hhdr, hct]
      rw [if_pos (by rfl)]
      rw [show createMessage createResponseJsonContent.content_bytes
          createResponseJsonContent.content_type
          createResponseJsonContent.content_encoding = .ok c5RespWire from rfl]
    rw [write, if_pos (by simp [hreq, hflag]), hcr]
  · intro t hflag2 a
    rw [write, if_neg (by simp [hflag2])]

theorem c5_response_once_amended_witness :
    write none { initServer with
        jsonheader := some (.obj (builderHeader (.str sysByteorder)
          (.str (strL "text/json")) (.str (strL "utf-8")) 0)),
        request := some (.bytes [1]) }
      = underscoreWrite none
          { initServer with
            jsonheader := some (.obj (builderHeader (.str sysByteorder)
              (.str (strL "text/json")) (.str (strL "utf-8")) 0)),
            request := some (.bytes [1]),
            responseCreated := true, sendBuffer := [] ++ c5RespWire }
      ∧ write (some 2) { initServer with responseCreated := true }
        = underscoreWrite (some 2) { initServer with responseCreated := true } := by
  obtain ⟨⟨_, h1⟩, h2⟩ := c5_response_once_amended
    { initServer with
      jsonheader := some (.obj (builderHeader (.str sysByteorder)
        (.str (strL "text/json")) (.str (strL "utf-8")) 0)),
      request := some (.bytes [1]) }
    (.obj (builderHeader (.str sysByteorder) (.str (strL "text/json"))
      (.str (strL "utf-8")) 0))
    none rfl rfl rfl (by simp [jsonSubscript, (builderHeader_lookup
      (.str sysByteorder) (.str (strL "text/json")) (.str (strL "utf-8")) 0).2.1])
  exact ⟨h1, h2 { initServer with responseCreated := true } rfl (some 2)⟩

/-- A passthrough message whose declared content length is zero, leaving a
set-but-falsy request attribute. -/
def c5FalsyMsg : List Nat :=
  wireOf (createMessage (some []) (some (strL "text/plain")) (strL "binary"))

/-- The connection after reading the zero-length passthrough request. -/
def c5FalsyS : Server := stateOf (read (some c5FalsyMsg) initServer)

/-- C5 counterexample: a reachable connection whose payload is set (the
empty byte string) while the flag is false, for which a write event creates
no response and leaves the flag false: the source gates creation on the
truthiness of the request, not on it being set. -/
theorem c5_counterexample :
    c5FalsyS.request = some (.bytes [])
      ∧ c5FalsyS.responseCreated = false
      ∧ write none c5FalsyS = .ok c5FalsyS
      ∧ c5FalsyS.sendBuffer = [] :=
  ⟨rfl, rfl, rfl, rfl⟩

/-- The scenario request object. -/
def cmdObj : Json := .obj (.cons (strL "cmd") (.str (strL "status")) .nil)

/-- The scenario content: the UTF-8 bytes of the compact text of the request
object. -/
def cmdBytes : List Nat := utf8Encode (strL "\x7b\x22cmd\x22:\x22status\x22\x7d")

/-- The scenario wire message with the correct content length. -/
def c9Msg : List Nat :=
  wireOf (createMessage (some cmdBytes) (some (strL "text/json")) (strL "utf-8"))

/-- The connection after the one-shot read of the scenario message. -/
def c9S1 : Server := stateOf (read (some c9Msg) initServer)

/-- The wire bytes of the scenario response. -/
def c9RespWire : List Nat :=
  wireOf (createMessage (some (utf8Encode (jsonDumps
      (.obj (.cons (strL "result") (.num 1) .nil)))))
    (some (strL "text/json")) (strL "utf-8"))

/-- C9 amended: the scenario content `\x7b"cmd":"status"\x7d` is 16 bytes, not
13; with content-length 16 in the header, the one-shot read parses the
payload into the object mapping cmd to status, a write event synthesizes the
builder-wrapped result object `\x7b"result": 1\x7d` and appends it with the
flag set, and a send that accepts the whole response drains the buffer and
closes the connection. -/
theorem c9_scenario_amended :
    cmdBytes.length = 16
      ∧ read (some c9Msg) initServer = .ok c9S1
      ∧ c9S1.request = some (.json cmdObj)
      ∧ createMessage (some (utf8Encode (jsonDumps
            (.obj (.cons (strL "result") (.num 1) .nil)))))
          (some (strL "text/json")) (strL "utf-8") = .ok c9RespWire
      ∧ (∃ s3, write none c9S1 = .ok s3 ∧ s3.sendBuffer = c9RespWire
          ∧ s3.responseCreated = true)
      ∧ (∃ s2, write (some c9RespWire.length) c9S1 = .ok s2
          ∧ s2.sendBuffer = [] ∧ s2.sock = false ∧ s2.registered = false
          ∧ s2.responseCreated = true) :=
  ⟨rfl, rfl, rfl, rfl, ⟨_, rfl, rfl, rfl⟩, ⟨_, rfl, rfl, rfl, rfl, rfl⟩⟩

/-- The scenario header as literally stated, with content-length 13. -/
def c9Hdr13 : List Nat := utf8Encode (jsonDumps (.obj (builderHeader
  (.str sysByteorder) (.str (strL "text/json")) (.str (strL "utf-8")) 13)))

/-- The scenario wire message as literally stated: content-length 13
followed by the 16 content bytes. -/
def c9Msg13 : List Nat := packU16BE c9Hdr13.length ++ c9Hdr13 ++ cmdBytes

/-- C9 counterexample: the stated scenario does not hold as written: the
content is 16 bytes, and with the stated content-length 13 the payload
stage slices only the first 13 bytes, which are not valid JSON, so the read
raises ValueError instead of yielding the payload. -/
theorem c9_counterexample :
    cmdBytes.length = 16
      ∧ getOk (read (some c9Msg13) initServer) = none :=
  ⟨rfl, rfl⟩

/-- A three-byte passthrough wire message used to exercise fragmentation. -/
def c2M : List Nat :=
  wireOf (createMessage (some [120, 121, 122])
    (some (strL "text/plain")) (strL "binary"))

/-- The connection after the one-shot read of that message. -/
def c2Final : Server := stateOf (read (some c2M) initServer)

/-- C2: delivering a wire message in any sequence of non-empty chunks, one
read event per chunk, leaves the connection in exactly the state of the
one-shot read, provided the one-shot read succeeds and any header it parses
declares a nonnegative content length. -/
theorem c2_fragmentation_invariance (M : List Nat) (cs : List (List Nat)) (sF : Server)
    (hjoin : cs.join = M)
    (hne : ∀ c ∈ cs, c ≠ [])
    (h : read (some M) initServer = .ok sF)
    (hNeg : NoNegClen sF) :
    feed cs initServer = .ok sF := by
  have hInv0 : StageInv initServer := by
    constructor
    · intro hh
      exact absurd hh (by simp [initServer])
    · intro hh
      exact absurd hh (by simp [initServer])
  cases cs with
  | nil =>
    rw [show M = ([] : List Nat) from by rw [← hjoin]; rfl] at h
    exact Except.noConfusion
      (show Except.error ((ProtoError.peerClosed, initServer) : Err) = Except.ok sF from h)
  | cons c cs' =>
    have hM : M ≠ [] := by
      intro hM0
      rw [hM0] at h
      exact Except.noConfusion
        (show Except.error ((ProtoError.peerClosed, initServer) : Err) = Except.ok sF from h)
    have h' : process (appendRecv (c :: cs').join initServer) = .ok sF := by
      rw [hjoin]
      exact (read_some_ne_nil M initServer hM).symm.trans h
    exact feed_of_process (c :: cs') initServer sF hne hInv0 hNeg h' (by simp)

theorem c2_fragmentation_invariance_witness :
    read (some c2M) initServer = .ok c2Final
      ∧ feed [c2M.take 5, c2M.drop 5] initServer = .ok c2Final
      ∧ c2Final.request = some (.bytes [120, 121, 122]) := by
  refine ⟨rfl, ?_, rfl⟩
  refine c2_fragmentation_invariance c2M [c2M.take 5, c2M.drop 5] c2Final rfl ?_ rfl ?_
  · intro c hc
    simp only [List.mem_cons, List.not_mem_nil, or_false] at hc
    rcases hc with h | h
    · rw [h]
      decide
    · rw [h]
      decide
  · intro H clv ci hH hcl hint
    have hH2 : (Json.obj (builderHeader (.str sysByteorder) (.str (strL "text/plain"))
        (.str (strL "binary")) 3)) = H := by
      injection hH
    subst hH2
    rw [show jsonSubscript (Json.obj (builderHeader (.str sysByteorder)
        (.str (strL "text/plain")) (.str (strL "binary")) 3)) hdrKeyContentLength
      = .ok (.num 3) from rfl] at hcl
    injection hcl with hcl
    subst hcl
    rw [show jsonAsPyInt (.num 3) = some 3 from rfl] at hint
    injection hint with hint
    rw [← hint]
    decide

/-- A text/json wire message whose content bytes are not valid JSON. -/
def c1Msg : List Nat :=
  wireOf (createMessage (some [120, 121, 122])
    (some (strL "text/json")) (strL "utf-8"))

/-- C1 counterexample: the round trip fails for the recognized content type.
For content type text/json the payload stage does not hand back the built
content bytes: it JSON-decodes them in the declared encoding, so for content
bytes xyz (not valid JSON) the decode pass raises ValueError instead of
returning (C, T, E). -/
theorem c1_counterexample :
    createMessage (some [120, 121, 122]) (some (strL "text/json")) (strL "utf-8")
        = .ok c1Msg
      ∧ getOk (process { initServer with recvBuffer := c1Msg }) = none :=
  ⟨rfl, rfl⟩

/-- C1 amended: for every content byte string C, every content type tag T
other than text/json, and every encoding tag E, if the message builder
succeeds on (C, T, E) then one decode pass over the built message recovers
exactly C as the raw payload, and the parsed header returns T, E and the
length of C under the content-type, content-encoding and content-length
keys. -/
theorem c1_roundtrip_amended (C : List Nat) (T E : List Char) (m : List Nat)
    (hT : T ≠ strL "text/json")
    (hm : createMessage (some C) (some T) E = .ok m) :
    ∃ st H, process { initServer with recvBuffer := m } = .ok st
      ∧ st.request = some (.bytes C)
      ∧ st.jsonheader = some H
      ∧ jsonSubscript H hdrKeyContentType = .ok (.str T)
      ∧ jsonSubscript H hdrKeyContentEncoding = .ok (.str E)
      ∧ jsonSubscript H hdrKeyContentLength = .ok (.num (Int.ofNat C.length)) := by
  set hdrJ : Json := Json.obj (builderHeader (.str sysByteorder) (.str T) (.str E)
    (Int.ofNat C.length)) with hhdrJ
  set hb : List Nat := utf8Encode (jsonDumps hdrJ) with hhb
  have hm' : (if hb.length < 65536
      then Except.ok (packU16BE hb.length ++ hb ++ C)
      else (Except.error ProtoError.structError : Except ProtoError (List Nat)))
      = Except.ok m := hm
  by_cases h65 : hb.length < 65536
  · rw [if_pos h65] at hm'
    injection hm' with hm'
    subst hm'
    obtain ⟨hbo, hct, hce, hcl⟩ := builderHeader_lookup (.str sysByteorder) (.str T)
      (.str E) (Int.ofNat C.length)
    have hsub_cl : jsonSubscript hdrJ hdrKeyContentLength
        = .ok (.num (Int.ofNat C.length)) := by
      rw [hhdrJ]
      simp only [jsonSubscript, hcl]
    have hsub_ct : jsonSubscript hdrJ hdrKeyContentType = .ok (.str T) := by
      rw [hhdrJ]
      simp only [jsonSubscript, hct]
    have hsub_ce : jsonSubscript hdrJ hdrKeyContentEncoding = .ok (.str E) := by
      rw [hhdrJ]
      simp only [jsonSubscript, hce]
    have hshape : packU16BE hb.length ++ hb ++ C
        = (hb.length / 256) :: (hb.length % 256) :: (hb ++ C) := by
      simp [packU16BE]
    have hup : unpackU16BE (hb.length / 256) (hb.length % 256) = hb.length := by
      rw [unpackU16BE]
      omega
    have hst1 : stage1 { initServer with recvBuffer := packU16BE hb.length ++ hb ++ C }
        = { initServer with jsonheaderLen := some hb.length, recvBuffer := hb ++ C } := by
      rw [stage1, if_pos (by rfl), processProtoheader]
      rw [show ({ initServer with recvBuffer := packU16BE hb.length ++ hb ++ C }
        : Server).recvBuffer = (hb.length / 256) :: (hb.length % 256) :: (hb ++ C)
        from hshape]
      show ({ initServer with jsonheaderLen := some (unpackU16BE (hb.length / 256) (hb.length % 256)), recvBuffer := hb ++ C } : Server) = _
      rw [hup]
    have hdec : jsonDecodeBytes hb = some hdrJ := by
      rw [hhb, hhdrJ]
      exact jsonDecodeBytes_header sysByteorder T E C.length
    have hfm : firstMissingAux hdrJ requiredHeaders = .ok none := by
      rw [hhdrJ]
      exact firstMissing_builderHeader _ _ _ _
    have hst2 : processJsonheader { initServer with jsonheaderLen := some hb.length, recvBuffer := hb ++ C } = .ok { initServer with jsonheaderLen := some hb.length, jsonheader := some hdrJ, recvBuffer := C } := by
      simp only [processJsonheader]
      rw [if_pos (show hb.length ≤ (hb ++ C).length from by
        rw [List.length_append]
        omega)]
      simp only [List.take_left, hdec, hfm, List.drop_left]
    have htr : jsonTruthy hdrJ = true := by
      rw [hhdrJ]
      rfl
    have hle : Int.ofNat C.length ≤ ((C : List Nat).length : Int) := le_refl _
    have hslice : pySliceTake C (Int.ofNat C.length) = C := by
      rw [pySliceTake, if_pos (show (0 : Int) ≤ Int.ofNat C.length from
        Int.ofNat_nonneg _)]
      simp
    have hst3 : stage3 { initServer with jsonheaderLen := some hb.length, jsonheader := some hdrJ, recvBuffer := C } = .ok { initServer with jsonheaderLen := some hb.length, jsonheader := some hdrJ, recvBuffer := C, request := some (.bytes C), eventsMask := .w } := by
      rw [stage3, if_pos (by simp [jsonOptTruthy, htr, initServer])]
      simp only [processRequest, hsub_cl, jsonAsPyInt, if_pos hle, hsub_ct,
        if_neg (show ¬ (jsonEqStr (.str T) (strL "text/json") = true) from by
          simp [jsonEqStr, hT]),
        hslice, setSelectorEventsMask]
      simp [initServer]
    refine ⟨{ initServer with jsonheaderLen := some hb.length, jsonheader := some hdrJ, recvBuffer := C, request := some (.bytes C), eventsMask := .w }, hdrJ, ?_, rfl, rfl, hsub_ct, hsub_ce, hsub_cl⟩
    rw [process, hst1, stage23, if_pos (by rfl), hst2]
    exact hst3
  · rw [if_neg h65] at hm'
    exact Except.noConfusion hm'

theorem c1_roundtrip_amended_witness :
    (strL "text/plain" : List Char) ≠ strL "text/json"
      ∧ ∃ st H, process { initServer with recvBuffer := c2M } = .ok st
        ∧ st.request = some (.bytes [120, 121, 122])
        ∧ st.jsonheader = some H
        ∧ jsonSubscript H hdrKeyContentType = .ok (.str (strL "text/plain"))
        ∧ jsonSubscript H hdrKeyContentEncoding = .ok (.str (strL "binary"))
        ∧ jsonSubscript H hdrKeyContentLength
            = .ok (.num (Int.ofNat ([120, 121, 122] : List Nat).length)) :=
  ⟨by decide, c1_roundtrip_amended [120, 121, 122] (strL "text/plain")
    (strL "binary") c2M (by decide) rfl⟩
